import Mathlib

set_option maxHeartbeats 2000000
set_option maxRecDepth 4000

/-!
Verification development for the Glint semantic analyser (`src/lib/glint/sema.cc`).

The definitions below are a shallow embedding of the analyser's data model and
of the routines the claims are about: the two-mode conversion engine
(`ConvertImpl` / `Convert` / `TryConvert`), explicit-cast analysis
(`AnalyseCast`), return-expression analysis, the dangling-dynamic-array
tracker, `Discard`, struct layout, enum value assignment, the module-metadata
loader, and the optimal-string-alignment spell-check.

Machine integers are modelled as `Nat` / `Int` with explicit `2 ^ 64`
bounds where the C++ code relies on 64-bit behaviour.
-/

/-- Function-type attribute set (subset used by the analyser paths modelled
here: `discardable`, `pure`, `const`). -/
structure FuncAttrs where
  discardable : Bool
  isPure : Bool
  isConst : Bool
deriving DecidableEq

/-- The Glint type model (`glint/ast.hh` is not part of the sources; the
constructors follow the spec's closed list of type variants, section 3).
`int signed bits` covers `Builtin` integer types, `FFIType` and `Integer`;
`erroredType` stands for a type node whose sema state is `Errored`.
Function types carry only their parameter count: the conversion and cast
paths modelled here consult `params().empty()` and nothing else about the
parameters. -/
inductive GType where
  | void
  | bool
  | int (signed : Bool) (bits : Nat)
  | ptr (elem : GType)
  | ref (elem : GType)
  | arr (elem : GType) (dim : Nat)
  | dynArray (elem : GType)
  | fn (ret : GType) (paramCount : Nat) (attrs : FuncAttrs)
  | enum (underlying : GType)
  | erroredType
deriving DecidableEq

def GType.isVoid : GType → Bool
  | .void => true
  | _ => false

def GType.isBool : GType → Bool
  | .bool => true
  | _ => false

/-- `Type::is_integer(false)`: strict integer types. -/
def GType.isIntStrict : GType → Bool
  | .int _ _ => true
  | _ => false

/-- `Type::is_integer(true)`: integer types, bools included.
Modelled from the spec: `glint/ast.hh` is missing; enums are not included
(the code tests `is_enum()` separately next to `is_integer(true)`). -/
def GType.isIntIncl : GType → Bool
  | .int _ _ => true
  | .bool => true
  | _ => false

/-- `Type::is_unsigned_int(context)`. Modelled from the spec (`glint/ast.hh`
missing): true exactly for unsigned integer types. -/
def GType.isUnsignedInt : GType → Bool
  | .int s _ => !s
  | _ => false

def GType.isRef : GType → Bool
  | .ref _ => true
  | _ => false

def GType.isPtr : GType → Bool
  | .ptr _ => true
  | _ => false

def GType.isEnum : GType → Bool
  | .enum _ => true
  | _ => false

def GType.isFunc : GType → Bool
  | .fn _ _ _ => true
  | _ => false

def GType.isDynArray : GType → Bool
  | .dynArray _ => true
  | _ => false

/-- `Type::size(context)` in bits. Modelled from the spec (`glint/ast.cc` is
not part of the sources): integers are their bit width, pointers and
references are word-sized, arrays multiply, a dynamic array lowers to a
`{data, length, capacity}` shadow struct. Only integer widths and one
equal-size reinterpret path depend on this in the claims below. -/
def GType.sizeBits : GType → Nat
  | .void => 0
  | .bool => 1
  | .int _ b => b
  | .ptr _ => 64
  | .ref _ => 64
  | .arr e d => d * e.sizeBits
  | .dynArray _ => 192
  | .fn _ _ _ => 0
  | .enum u => u.sizeBits
  | .erroredType => 0

/-- `Type::strip_pointers_and_references()`. -/
def GType.stripPtrRef : GType → GType
  | .ptr e => e.stripPtrRef
  | .ref e => e.stripPtrRef
  | t => t

/-- `Sema::DeclTypeDecay`: function types decay to function pointers in
declaration positions (sema.cc line 257). -/
def DeclTypeDecay : GType → GType
  | .fn r ps a => .ptr (.fn r ps a)
  | t => t

/-- Cast kinds (`CastKind` in the AST). `softC`/`hardC` are the explicit
user-written forms (`as` / `as!`); the rest are sema-generated. -/
inductive CastKind where
  | softC
  | hardC
  | implicitC
  | lvalueToRValueC
  | lvalueToRefC
  | refToLValueC
deriving DecidableEq

/-- Expression model: the constructors cover the node kinds that the
analysed routines below inspect.  `varRef`/`fnRef` are `NameRefExpr`s whose
target is a variable resp. a function declaration, `declE` is a `Decl`
node, `constE` a `ConstantExpr` wrapper, `errE` an expression whose sema
state is `Errored`.  Integer literal values are 64-bit patterns (`Nat`
below `2 ^ 64`). -/
inductive GExpr where
  | intLit (v : Nat)
  | varRef (id : Nat) (ty : GType)
  | fnRef (id : Nat) (ty : GType)
  | declE (id : Nat) (ty : GType)
  | callE (callee : GExpr) (args : List GExpr)
  | castE (k : CastKind) (target : GType) (operand : GExpr)
  | constE (v : Nat) (inner : GExpr)
  | blockE (children : List GExpr)
  | errE (ty : GType)

mutual

/-- `Expr::type()`.  A call's type is the return type of the callee
(`AnalyseCall`); a block's type is its last child's type; a `ConstantExpr`
has the type of the wrapped expression. -/
def GExpr.type : GExpr → GType
  | .intLit _ => .int true 64
  | .varRef _ ty => ty
  | .fnRef _ ty => ty
  | .declE _ ty => ty
  | .callE c _ =>
      match GExpr.type c with
      | .fn r _ _ => r
      | .ptr (.fn r _ _) => r
      | _ => .void
  | .castE _ tgt _ => tgt
  | .constE _ inner => GExpr.type inner
  | .blockE cs => typeOfLast cs
  | .errE ty => ty

def typeOfLast : List GExpr → GType
  | [] => .void
  | [e] => GExpr.type e
  | _ :: e :: rest => typeOfLast (e :: rest)

end

mutual

/-- `Expr::is_lvalue()` after analysis: variables and declarations are
lvalues, a `ReferenceToLValue` cast is an lvalue (`AnalyseCast` line 1850),
a block takes its last child's lvalueness. -/
def GExpr.lval : GExpr → Bool
  | .varRef _ _ => true
  | .declE _ _ => true
  | .castE k _ _ => k = .refToLValueC
  | .blockE cs => lvalOfLast cs
  | _ => false

def lvalOfLast : List GExpr → Bool
  | [] => false
  | [e] => GExpr.lval e
  | _ :: e :: rest => lvalOfLast (e :: rest)

end

/-- `Expr::ok()`: not errored. -/
def GExpr.isOk : GExpr → Bool
  | .errE _ => false
  | _ => true

/-- `Expr::evaluate(ctx, res, false)` restricted to the node kinds of the
model (`glint/eval.cc` is not part of the sources; modelled from the spec's
compile-time constant evaluation: literals and `ConstantExpr`s evaluate,
casts evaluate through their operand, name references do not). -/
def GExpr.eval : GExpr → Option Nat
  | .intLit v => some v
  | .constE v _ => some v
  | .castE _ _ op => GExpr.eval op
  | _ => none

def isDeclE : GExpr → Bool
  | .declE _ _ => true
  | _ => false

def isBlockE : GExpr → Bool
  | .blockE _ => true
  | _ => false

def isCallE : GExpr → Bool
  | .callE _ _ => true
  | _ => false

/-- Guard of `Sema::Deproceduring` (sema.cc lines 261-277): the expression
has zero-argument function (or pointer-to-function) type and is neither a
declaration nor a block. -/
def deprocApplicable (e : GExpr) : Bool :=
  (match e.type with
   | .fn _ ps _ => ps = 0
   | .ptr (.fn _ ps _) => ps = 0
   | _ => false)
  && !isDeclE e && !isBlockE e

/-- `Sema::Deproceduring` (sema.cc lines 261-282): when the guard holds the
expression slot is replaced by an implicit zero-argument call (which is then
re-analysed; the call's type is computed structurally in the model). -/
def Deproceduring (e : GExpr) : Option GExpr :=
  if deprocApplicable e then some (.callE e []) else none

def GType.typeDepth : GType → Nat
  | .ref t => t.typeDepth + 1
  | _ => 0

/-- Body of `Sema::LValueToRValue(expr, strip_ref)` (sema.cc lines 495-536),
with the recursion bounded by a fuel argument so that the definition reduces
by `rfl` on concrete inputs.  The recursion strictly decreases the reference
depth of the expression's type, so a fuel of `typeDepth + 1` always
suffices (`l2rFuel_enough` below).  The sum-type member-access special case
does not arise for the node kinds in this model.  Wrapping preserves the
type; when `strip_ref` is set and the type is a reference, a
`ReferenceToLValue` cast is inserted and the routine recurses. -/
def l2rFuel : Nat → Bool → GExpr → GExpr
  | 0, _, e => e
  | fuel + 1, stripRef, e =>
    if e.isOk = false then e
    else
      let e1 := if e.lval then GExpr.castE .lvalueToRValueC e.type e else e
      match e.type with
      | .ref t =>
          if stripRef then l2rFuel fuel true (GExpr.castE .refToLValueC t e1)
          else e1
      | _ => e1

/-- `Sema::LValueToRValue(expr, strip_ref)` (sema.cc lines 495-536). -/
def LValueToRValue (stripRef : Bool) (e : GExpr) : GExpr :=
  l2rFuel (e.type.typeDepth + 1) stripRef e

/-- `to->is_reference() and Type::Equal(from, to->elem())` (sema.cc line 70). -/
def refBindOk (fromTy tgt : GType) : Bool :=
  match tgt with
  | .ref te => fromTy == te
  | _ => false

/-- Element of a reference target equals the given array element type
(sema.cc line 93). -/
def refElemMatches (ae tgt : GType) : Bool :=
  match tgt with
  | .ref te => ae == te
  | _ => false

/-- `from->is_function() and to->is_pointer() and Type::Equal(to->elem(), from)`
(sema.cc lines 109 and 162). -/
def fnToPtrOk (from2 tgt : GType) : Bool :=
  match from2, tgt with
  | .fn _ _ _, .ptr pe => pe == from2
  | _, _ => false

/-- Element of a pointer target equals the given array element type
(sema.cc line 126). -/
def ptrElemMatches (ae tgt : GType) : Bool :=
  match tgt with
  | .ptr te => ae == te
  | _ => false

def bothArr (a b : GType) : Bool :=
  match a, b with
  | .arr _ _, .arr _ _ => true
  | _, _ => false

/-- `utils::MaxBitValue(bits)`: the largest value of a `bits`-wide unsigned
integer (`lcc/utils.hh` is not part of the sources; modelled from the spec:
`2 ^ width - 1`). -/
def maxBitValue (bits : Nat) : Nat := 2 ^ bits - 1

/-- `aint::slt(0)` on the 64-bit pattern `v`: the sign bit is set. -/
def sltZero (v : Nat) : Bool := 2 ^ 63 ≤ v

/-- Rules of `Sema::ConvertImpl` from the repeated function-to-pointer rule
on (sema.cc lines 160-231): function-to-pointer, integer↔boolean,
integer-to-integer, final deproceduring attempt, impossible.  `score2` is
the accumulated lvalue/reference score, `slot2` the current slot
contents. -/
def ConvertNum (perform : Bool) (score2 : Int) (slot2 : GExpr) (tgt : GType) :
    Int × GExpr :=
  let from2 := slot2.type
  -- Function types can be converted to their corresponding pointer types
  -- (second occurrence in the source, lines 160-168).
  if fnToPtrOk from2 tgt then
    (0, if perform then GExpr.castE .implicitC tgt slot2 else slot2)
  -- Integer to boolean and vice versa (lines 170-178).
  else if (from2.isIntStrict ∧ tgt.isBool) ∨ (from2.isBool ∧ tgt.isIntStrict) then
    (score2 + 1, if perform then GExpr.castE .implicitC tgt slot2 else slot2)
  -- Integer to integer (lines 180-224).
  else if from2.isIntStrict ∧ tgt.isIntStrict then
    match slot2.eval with
    | some v =>
        -- Signed to unsigned conversion of a negative constant (line 199).
        if sltZero v ∧ tgt.isUnsignedInt then (-1, slot2)
        -- Unsigned-source constant above the destination's maximum (lines 202-206).
        else if from2.isUnsignedInt ∧ tgt.sizeBits < 64 ∧ maxBitValue tgt.sizeBits < v then
          (-1, slot2)
        else
          (score2 + 1,
           if perform then GExpr.constE v (GExpr.castE .implicitC tgt slot2) else slot2)
    | none =>
        -- Otherwise allow iff the source size fits (lines 215-223).
        if from2.sizeBits ≤ tgt.sizeBits then
          (score2 + 1, if perform then GExpr.castE .implicitC tgt slot2 else slot2)
        else (-1, slot2)
  -- Try deproceduring one last time (line 227).
  else if deprocApplicable slot2 then (score2 + 1, GExpr.callE slot2 [])
  else (-1, slot2)

/-- Rules of `Sema::ConvertImpl` for pointers and arrays (sema.cc lines
122-158), continuing with `ConvertNum`. -/
def ConvertPtrArr (perform : Bool) (score2 : Int) (slot2 : GExpr) (tgt : GType) :
    Int × GExpr :=
  let from2 := slot2.type
  match (if from2.isPtr ∧ tgt.isPtr then
           match from2 with
           | .ptr (.arr ae _) =>
               -- Pointer-to-array decays to pointer-to-first-element (line 126).
               if ptrElemMatches ae tgt then
                 some (score2 + 1)
               -- Any pointer converts to `@void` (line 133).
               else if tgt = GType.ptr .void then some (score2 + 1) else none
           | _ => if tgt = GType.ptr .void then some (score2 + 1) else none
         else none) with
  | some sc => (sc, if perform then GExpr.castE .implicitC tgt slot2 else slot2)
  | none =>
      -- Array to array conversions (lines 140-158): allowed iff the source
      -- dimension fits; element compatibility is deliberately not checked.
      if bothArr from2 tgt then
        (match from2, tgt with
         | .arr _ fd, .arr _ td =>
             if fd > td then (-1, slot2)
             else (score2 + 1, if perform then GExpr.castE .implicitC tgt slot2 else slot2)
         | _, _ => (-1, slot2))
      else ConvertNum perform score2 slot2 tgt

/-- Rules of `Sema::ConvertImpl` after the reference handling (sema.cc
lines 107-120): function-to-pointer, deproceduring (not guarded by
`perform`, exactly as in the source), equality re-test; then
`ConvertPtrArr`. -/
def ConvertRest (perform : Bool) (score2 : Int) (slot2 : GExpr) (tgt : GType) :
    Int × GExpr :=
  let from2 := slot2.type
  -- Function types convert to their function pointer types (lines 107-113).
  if fnToPtrOk from2 tgt then
    (0, if perform then GExpr.castE .implicitC tgt slot2 else slot2)
  -- Try deproceduring (line 116; note: not guarded by `perform`).
  else if deprocApplicable slot2 then (score2 + 1, GExpr.callE slot2 [])
  -- Re-test equality after lvalue-to-rvalue conversion (line 120).
  else if from2 = tgt then (0, slot2)
  else ConvertPtrArr perform score2 slot2 tgt

/-- `Sema::ConvertImpl<PerformConversion>(expr_ptr, to)` (sema.cc lines
37-232), transcribed rule for rule (the rules from line 107 on live in
`ConvertRest`/`ConvertPtrArr`/`ConvertNum`).  The result is the score
(−2 types-errored, −1 impossible, ≥ 0 cost) together with the final
contents of the expression slot. -/
def ConvertImpl (perform : Bool) (slot : GExpr) (tgt : GType) : Int × GExpr :=
  let fromTy := slot.type
  -- Cannot convert if the types contain errors (line 52).
  if fromTy = GType.erroredType ∨ tgt = GType.erroredType then (-2, slot)
  -- Any type can be converted to void (line 64).
  else if tgt.isVoid then (0, slot)
  -- Any type can be converted to itself (line 67).
  else if fromTy = tgt then (0, slot)
  -- Reference binding requires an lvalue (lines 70-78).
  else if refBindOk fromTy tgt then
    (if slot.lval then
       (0, if perform then GExpr.castE .lvalueToRefC tgt slot else slot)
     else (-1, slot))
  else
  -- Lvalue to rvalue conversion is required (lines 81-83).
  let score1 : Int := if slot.lval then 1 else 0
  let slot1 := if perform then LValueToRValue false slot else slot
  let from1 := slot1.type
  -- Reference-to-reference conversions (lines 86-99).
  if from1.isRef ∧ tgt.isRef then
    (if from1 = tgt then (0, slot1)
     else
       match from1 with
       | .ref (.arr ae _) =>
           if refElemMatches ae tgt then
             (score1 + 1, if perform then GExpr.castE .implicitC tgt slot1 else slot1)
           else (-1, slot1)
       | _ => (-1, slot1))
  else
  -- Strip reference from `from` if need be (lines 102-105).
  let score2 : Int := score1 + (if from1.isRef then 1 else 0)
  let slot2 := if perform ∧ from1.isRef then LValueToRValue true slot1 else slot1
  ConvertRest perform score2 slot2 tgt

/-- `Sema::TryConvert` (sema.cc lines 550-552). -/
def TryConvert (slot : GExpr) (tgt : GType) : Int × GExpr :=
  ConvertImpl false slot tgt

/-- `Sema::Convert` (sema.cc lines 30-33): returns whether the conversion
succeeded (errored expressions are vacuously convertible) together with the
final slot contents. -/
def Convert (slot : GExpr) (tgt : GType) : Bool × GExpr :=
  if slot.isOk = false then (true, slot)
  else
    let r := ConvertImpl true slot tgt
    (decide (0 ≤ r.1), r.2)

/-- Default attribute set used by concrete examples. -/
def noAttrs : FuncAttrs := ⟨false, false, false⟩

/-- Diagnostics emitted by the modelled analyser paths.  `unusedResult` is
the only `Warning` among them; the rest are `Error`s (which set the context
error flag). -/
inductive Diag where
  | invalidRefCast
  | unsafeCastUseHard
  | invalidCast
  | useAfterFree (id : Nat)
  | returnVoidValue
  | returnNotConvertible
  | initNotConvertible (id : Nat)
  | minusNotInteger
  | forgotToFree (id : Nat)
  | discardNotDiscardable
  | unusedResult
deriving DecidableEq

def Diag.isWarning : Diag → Bool
  | .unusedResult => true
  | _ => false

/-- `Sema::AnalyseCast` (sema.cc lines 1845-1908), as a function of the cast
kind, the (already analysed) operand, and the cast's target type.  Returns
the diagnostics emitted together with the final operand slot. -/
def AnalyseCast (k : CastKind) (operand : GExpr) (tgt : GType) : List Diag × GExpr :=
  -- Sema-generated casts are fine (lines 1848-1852).
  if k = .implicitC ∨ k = .lvalueToRValueC ∨ k = .lvalueToRefC ∨ k = .refToLValueC then
    ([], operand)
  -- If analysis of the operand failed, give up (line 1857).
  else if operand.isOk = false then ([], operand)
  else
    -- If the types are implicitly convertible, the cast is fine (line 1863).
    let c := Convert operand tgt
    if c.1 then ([], c.2)
    else
      let op1 := c.2
      let fromT := op1.type
      -- Casting an rvalue to a reference type is invalid (line 1872).
      if tgt.isRef then ([.invalidRefCast], op1)
      -- Enums/integers to integers/booleans soft-cast fine (line 1879).
      else if (fromT.isIntIncl || fromT.isEnum) && tgt.isIntIncl then ([], op1)
      -- Pointers to integers/booleans soft-cast fine (line 1882).
      else if fromT.isPtr && tgt.isIntIncl then ([], op1)
      -- Hard casts from integers to enums (line 1895).
      else if fromT.isIntIncl && tgt.isEnum then
        (if k ≠ .hardC then [.unsafeCastUseHard] else [], op1)
      -- Hard casts between pointers and from integers to pointers (line 1901).
      else if tgt.isPtr && (fromT.isIntStrict || fromT.isPtr) then
        (if k ≠ .hardC then [.unsafeCastUseHard] else [], op1)
      -- Hard casts between equal-size types (line 1904).
      else if fromT.sizeBits = tgt.sizeBits ∧ k = .hardC then ([], op1)
      -- Any other casts are not allowed (line 1907).
      else ([.invalidCast], op1)

mutual

/-- `Sema::HasSideEffects` (sema.cc lines 348-445), restricted to the node
kinds of the model. -/
def HasSideEffects : GExpr → Bool
  | .intLit _ => false
  | .varRef _ _ => false
  | .fnRef _ _ => false
  | .declE _ _ => true
  | .castE _ _ op => HasSideEffects op
  | .constE _ inner => HasSideEffects inner
  | .blockE cs => anySideEffects cs
  | .callE c args =>
      HasSideEffects c || anySideEffects args ||
      (match (GExpr.type c).stripPtrRef with
       | .fn _ _ a => !(a.isPure || a.isConst)
       | _ => false)
  | .errE _ => false

def anySideEffects : List GExpr → Bool
  | [] => false
  | e :: es => HasSideEffects e || anySideEffects es

end

/-- `CallExpr::callee_type()`: the function type reached through the
callee's (possibly pointer/reference) type. -/
def calleeAttrs : GExpr → Option FuncAttrs
  | .callE c _ =>
      (match (GExpr.type c).stripPtrRef with
       | .fn _ _ a => some a
       | _ => none)
  | _ => none

/-- `Sema::Discard` (sema.cc lines 284-311): void or errored expressions are
ignored; a call to a non-`discardable` function is an error; otherwise
deproceduring is applied once; otherwise a side-effect-free expression gets
an unused-result warning. -/
def Discard (e : GExpr) : List Diag × GExpr :=
  if e.isOk = false || (GExpr.type e).isVoid then ([], e)
  else
    let d1 : List Diag :=
      match calleeAttrs e with
      | some a => if !a.discardable then [.discardNotDiscardable] else []
      | none => []
    match Deproceduring e with
    | some e2 => (d1, e2)
    | none =>
        if HasSideEffects e = false then (d1 ++ [.unusedResult], e)
        else (d1, e)

/-- The discard loop of the `Block` case (sema.cc lines 1032-1038): every
non-last child that analysed successfully is discarded.  Collects the
diagnostics those `Discard` calls emit. -/
def blockDiscardDiags : List GExpr → List Diag
  | [] => []
  | [_] => []
  | c :: c2 :: rest =>
      (if c.isOk then (Discard c).1 else []) ++ blockDiscardDiags (c2 :: rest)

/-! ### Function-body analysis state (return expressions, dangling dynamic arrays) -/

/-- The per-function analysis state: the function's
`dangling_dynarrays()` list, the set of declarations marked
`NoLongerViable`, the diagnostics emitted so far (errors set the context
error flag; warnings do not). -/
structure SemaState where
  dangling : List Nat
  nlv : List Nat
  diags : List Diag
  errFlag : Bool
deriving DecidableEq

def emitDiag (st : SemaState) (d : Diag) : SemaState :=
  { st with diags := st.diags ++ [d], errFlag := st.errFlag || !d.isWarning }

/-- Aborts of the analysed process: dereferencing a null operand, or a
failed `LCC_ASSERT`. -/
inductive Crash where
  | nullDereference
  | assertFail
deriving DecidableEq

/-- Simple expressions appearing as operands in the statement-level model:
integer literals and name references to variables. -/
inductive SExpr where
  | sLit (v : Nat)
  | sVar (id : Nat) (ty : GType)
deriving DecidableEq

def SExpr.toG : SExpr → GExpr
  | .sLit v => .intLit v
  | .sVar id ty => .varRef id ty

/-- Analysing a simple operand: a `NameRef` to a `NoLongerViable` target is
a use-after-free error (sema.cc lines 2198-2204); the reference itself
still resolves. -/
def analyseSimple (st : SemaState) : SExpr → SemaState
  | .sLit _ => st
  | .sVar id _ => if id ∈ st.nlv then emitDiag st (.useAfterFree id) else st

/-- The `Expr::Kind::Return` case of `Sema::Analyse` (sema.cc lines
935-968), transcribed statement by statement.  Note the dynamic-array
check dereferences `r->value()` before any null check, exactly as in the
source: a return without an operand crashes. -/
def AnalyseReturn (retTy : GType) (st : SemaState) (val : Option SExpr) :
    Except Crash SemaState :=
  -- if (r->value()) Analyse(&r->value(), ret_type);
  let st1 := match val with
    | some v => analyseSimple st v
    | none => st
  -- if (r->value()->type()->is_dynamic_array()) ...   [line 944: unguarded]
  match val with
  | none => .error .nullDereference
  | some v =>
      let st2 :=
        if (v.toG.type).isDynArray then
          match v with
          | .sVar id _ => { st1 with dangling := st1.dangling.filter (fun x => x ≠ id) }
          | _ => st1
        else st1
      if retTy.isVoid then
        -- void functions must not return a (non-void) value (line 954).
        .ok (if (v.toG.type).isVoid = false then emitDiag st2 .returnVoidValue else st2)
      else
        -- the operand is present, so the missing-value error cannot fire;
        -- convert it to the return type (line 961).
        .ok (if (Convert v.toG retTy).1 = false then emitDiag st2 .returnNotConvertible else st2)

/-- The `Expr::Kind::VarDecl` case of `Sema::Analyse` (sema.cc lines
1069-1120), restricted to declarations with explicit types: the
initialiser (if any) is analysed and converted, and a declaration of
dynamic-array type is recorded in the current function's dangling list
(lines 1116-1117). -/
def AnalyseVarDecl (st : SemaState) (id : Nat) (ty : GType) (init : Option SExpr) :
    SemaState :=
  let st1 := match init with
    | some v => analyseSimple st v
    | none => st
  let dty := DeclTypeDecay ty
  let st2 := match init with
    | some v =>
        if (Convert v.toG dty).1 = false then emitDiag st1 (.initNotConvertible id) else st1
    | none => st1
  if dty.isDynArray then { st2 with dangling := st2.dangling ++ [id] } else st2

/-- The `TokenKind::Minus` case of `Sema::AnalyseUnary` (sema.cc lines
2296-2330): freeing a dynamic array through a name reference marks the
target `NoLongerViable` and erases it from the dangling list; a
dynamic-array operand that is not a name reference fails an assertion;
otherwise the operand must be an integer. -/
def AnalyseUnaryMinus (st : SemaState) (op : SExpr) : Except Crash SemaState :=
  let st1 := analyseSimple st op
  if (op.toG.type).isDynArray then
    match op with
    | .sVar id _ =>
        .ok { st1 with nlv := st1.nlv ++ [id],
                       dangling := st1.dangling.filter (fun x => x ≠ id) }
    | _ => .error .assertFail
  else
    .ok (if (op.toG.type).isIntStrict then st1 else emitDiag st1 .minusNotInteger)

/-- Statements of a function body in the statement-level model. -/
inductive Stmt where
  | sDecl (id : Nat) (ty : GType) (init : Option SExpr)
  | sMinus (op : SExpr)
  | sRet (val : Option SExpr)
  | sBare (e : SExpr)
deriving DecidableEq

def AnalyseStmt (retTy : GType) (st : SemaState) : Stmt → Except Crash SemaState
  | .sDecl id ty init => .ok (AnalyseVarDecl st id ty init)
  | .sMinus op => AnalyseUnaryMinus st op
  | .sRet val => AnalyseReturn retTy st val
  | .sBare e => .ok (analyseSimple st e)

/-- Diagnostics `Discard` emits for a non-last block child of each statement
kind (routed through `Discard` where the statement is itself an expression
of the `GExpr` model; a unary `-` on a freed dynamic array has type `void`,
a `-` on an integer is a side-effect-free non-void expression, an errored
`-` is not discarded because the child is not `ok`). -/
def stmtDiscardDiags : Stmt → List Diag
  | .sBare e => (Discard e.toG).1
  | .sDecl id ty _ => (Discard (GExpr.declE id ty)).1
  | .sMinus op =>
      if (op.toG.type).isDynArray then []
      else if (op.toG.type).isIntStrict then [.unusedResult]
      else []
  | .sRet _ => []

/-- The `Expr::Kind::Block` case applied to a function body's children
(sema.cc lines 1025-1044): each child is analysed in order and every
non-last child is discarded. -/
def AnalyseBody (retTy : GType) (st : SemaState) : List Stmt → Except Crash SemaState
  | [] => .ok st
  | [s] => AnalyseStmt retTy st s
  | s :: s2 :: rest => do
      let st1 ← AnalyseStmt retTy st s
      let st2 := { st1 with diags := st1.diags ++ stmtDiscardDiags s }
      AnalyseBody retTy st2 (s2 :: rest)

/-- A function: named parameters, return type, body statements. -/
structure FnModel where
  params : List (Nat × GType)
  retTy : GType
  body : List Stmt

/-- `Sema::AnalyseFunctionBody` (sema.cc lines 746-799): parameter
`VarDecl`s are declared and analysed (recording dynamic-array parameters in
the dangling list), the dangling list is then cleared (line 783), the body
is analysed, and — only when the context has no error — every entry still
in the dangling list is reported as a forgotten free. -/
def AnalyseFunctionBody (fn : FnModel) (st0 : SemaState) : Except Crash SemaState :=
  let stP := fn.params.foldl (fun st p => AnalyseVarDecl st p.1 p.2 none) st0
  let stC := { stP with dangling := [] }
  do
    let stB ← AnalyseBody fn.retTy stC fn.body
    if stB.errFlag then .ok stB
    else .ok { stB with diags := stB.diags ++ stB.dangling.map (fun id => Diag.forgotToFree id) }

/-- The dangling-set evolution as the claim states it: gains declared
dynamic-array variables, loses a variable when it is freed with unary `-`
or returned via a name reference. -/
def danglingStep (acc : List Nat) : Stmt → List Nat
  | .sDecl id ty _ => if (DeclTypeDecay ty).isDynArray then acc ++ [id] else acc
  | .sMinus (.sVar id ty) => if ty.isDynArray then acc.filter (fun x => x ≠ id) else acc
  | .sMinus (.sLit _) => acc
  | .sRet (some (.sVar id ty)) => if ty.isDynArray then acc.filter (fun x => x ≠ id) else acc
  | .sRet _ => acc
  | .sBare _ => acc

def danglingSpec (stmts : List Stmt) : List Nat := stmts.foldl danglingStep []

/-- The variable ids declared (with dynamic-array type) by a statement list. -/
def declaredIds : List Stmt → List Nat
  | [] => []
  | .sDecl id _ _ :: rest => id :: declaredIds rest
  | _ :: rest => declaredIds rest

/-! ### Struct layout (`Type::Kind::Struct`, sema.cc lines 2671-2701) -/

/-- `utils::AlignTo(value, align)` (`lcc/utils.hh` is not part of the
sources; modelled from the spec: align the value up to the next multiple of
`align`). -/
def alignTo (value align : Nat) : Nat := (value + align - 1) / align * align

/-- The member-finalisation loop of the `Struct` case: for each member (as
its byte size and byte alignment), compute its offset by aligning the
running size up to the member's alignment, then advance the running size
and take the running maximum of alignments. -/
def layoutMembers : List (Nat × Nat) → Nat → Nat → (List Nat × Nat × Nat)
  | [], run, al => ([], run, al)
  | (msize, malign) :: rest, run, al =>
      let off := alignTo run malign
      let r := layoutMembers rest (off + msize) (max al malign)
      (off :: r.1, r.2)

/-- Result of analysing a struct type: member offsets, the running byte
size before final alignment, the struct alignment, and the final byte
size. -/
structure StructLayout where
  offsets : List Nat
  runSize : Nat
  alignment : Nat
  byteSize : Nat
deriving DecidableEq

/-- The `Type::Kind::Struct` case of the type analyser (sema.cc lines
2671-2701): running size starts at 0, alignment at 1; the final size is the
running size aligned up to the struct alignment, except that a zero running
size yields size 0. -/
def AnalyseStruct (members : List (Nat × Nat)) : StructLayout :=
  let r := layoutMembers members 0 1
  { offsets := r.1
    runSize := r.2.1
    alignment := r.2.2
    byteSize := if r.2.1 ≠ 0 then alignTo r.2.1 r.2.2 else 0 }

/-- The member-offset formula as the claim states it: each member's offset
is the running size aligned up to that member's alignment. -/
def specOffsets : List (Nat × Nat) → Nat → List Nat
  | [], _ => []
  | (msize, malign) :: rest, run =>
      alignTo run malign :: specOffsets rest (alignTo run malign + msize)

/-! ### Enum analysis (`Type::Kind::Enum`, sema.cc lines 2704-2834) -/

/-- The duplicate-enumerator scan (sema.cc lines 2726-2735): names are
inserted into a set in declaration order; an insertion that finds the name
already present is an error.  Enumerator names are modelled as interned
ids. -/
def enumDupScan (seen : List Nat) : List Nat → Bool
  | [] => false
  | n :: rest => if n ∈ seen then true else enumDupScan (n :: seen) rest

/-- The value-assignment loop (sema.cc lines 2737-2833) for an enum with
integer underlying type, restricted to enumerators whose initialisers are
integer constant expressions (given as their evaluated values): an
enumerator without an initialiser receives `++next_val` where `next_val`
starts at −1; an initialised enumerator keeps its value and sets `next_val`
to it plus one. -/
def assignEnumValues : List (Nat × Option Int) → Int → List Int
  | [], _ => []
  | (_, none) :: rest, next => (next + 1) :: assignEnumValues rest (next + 1)
  | (_, some k) :: rest, _ => k :: assignEnumValues rest (k + 1)

/-- The `Type::Kind::Enum` case for an integer-like underlying type:
duplicate names are an error (`none`); otherwise every enumerator receives
a value. -/
def AnalyseEnum (vals : List (Nat × Option Int)) : Option (List Int) :=
  if enumDupScan [] (vals.map (fun v => v.1)) then none
  else some (assignEnumValues vals (-1))

/-! ### Module metadata loading (sema.cc lines 575-733) -/

/-- External collaborators of the loader: the file system, the ELF
`.glint_metadata` section extractor (`object/elf` is out of scope), and the
module deserialiser. -/
structure LoadEnv where
  fs : String → Option (List Nat)
  getSection : List Nat → List Nat
  deser : List Nat → Bool

/-- The four leading metadata bytes
`{default_version, magic_byte0, magic_byte1, magic_byte2}`
(`glint/module_description.hh` is not part of the sources; modelled from
the spec: `{version=1, 0xC0, 0xFF, 0xEE}`). -/
def metadataMagic : List Nat := [1, 0xC0, 0xFF, 0xEE]

/-- The ELF file magic `0x7F 'E' 'L' 'F'`. -/
def elfMagic : List Nat := [0x7f, 0x45, 0x4c, 0x46]

/-- Hard errors of the loader: failed `LCC_ASSERT`s (empty blob, bad
metadata magic, unrecognised object format) and the unimplemented assembly
path (`LCC_TODO`).  An out-of-range `.at()` on a blob shorter than four
bytes is folded into the magic assertion: both abort. -/
inductive LoadErr where
  | emptyBlob
  | badMagic
  | unrecognizedFormat
  | asmTodo
deriving DecidableEq

/-- `Sema::try_get_metadata_blob_from_gmeta` (sema.cc lines 644-681). -/
def tryGmeta (env : LoadEnv) (name dir : String) (tried : List String) :
    Except LoadErr (List String × Bool) :=
  let path := dir ++ "/" ++ name ++ ".gmeta"
  let tried2 := tried ++ [path]
  match env.fs path with
  | none => .ok (tried2, false)
  | some bytes =>
      if bytes = [] then .error .emptyBlob
      else if bytes.take 4 ≠ metadataMagic then .error .badMagic
      else .ok (tried2, env.deser bytes)

/-- The candidate object paths, in source order (sema.cc lines 580-589):
`{name, lib+name}` crossed with `{.o, .obj, .a}`. -/
def objectPaths (name dir : String) : List String :=
  [dir ++ "/" ++ name ++ ".o",
   dir ++ "/" ++ name ++ ".obj",
   dir ++ "/" ++ name ++ ".a",
   dir ++ "/lib" ++ name ++ ".o",
   dir ++ "/lib" ++ name ++ ".obj",
   dir ++ "/lib" ++ name ++ ".a"]

/-- The body of `Sema::try_get_metadata_blob_from_object` (sema.cc lines
575-642): paths are tried in order; the first existing file is processed
and its result returned (the remaining paths are not tried).  A found file
must be a well-formed ELF object (size at least the ELF64 header, leading
ELF magic) whose extracted section is non-empty and starts with the
metadata magic. -/
def tryObjectList (env : LoadEnv) : List String → List String →
    Except LoadErr (List String × Bool)
  | [], tried => .ok (tried, false)
  | p :: rest, tried =>
      let tried2 := tried ++ [p]
      match env.fs p with
      | none => tryObjectList env rest tried2
      | some bytes =>
          if bytes = [] then .error .emptyBlob
          else if 64 ≤ bytes.length ∧ bytes.take 4 = elfMagic then
            let blob := env.getSection bytes
            if blob = [] then .error .emptyBlob
            else if blob.take 4 ≠ metadataMagic then .error .badMagic
            else .ok (tried2, env.deser blob)
          else .error .unrecognizedFormat

def tryObject (env : LoadEnv) (name dir : String) (tried : List String) :
    Except LoadErr (List String × Bool) :=
  tryObjectList env (objectPaths name dir) tried

/-- `Sema::try_get_metadata_blob_from_assembly` (sema.cc lines 683-700):
an existing `.s` candidate hits `LCC_TODO`. -/
def tryAsm (env : LoadEnv) (name dir : String) (tried : List String) :
    Except LoadErr (List String × Bool) :=
  let path := dir ++ "/" ++ name ++ ".s"
  let tried2 := tried ++ [path]
  match env.fs path with
  | none => .ok (tried2, false)
  | some _ => .error .asmTodo

/-- One iteration of the include-directory loop (sema.cc lines 708-713):
`gmeta or object or assembly`, short-circuited. -/
def loadFromDir (env : LoadEnv) (name dir : String) (tried : List String) :
    Except LoadErr (List String × Bool) := do
  let r1 ← tryGmeta env name dir tried
  if r1.2 then .ok r1
  else
    let r2 ← tryObject env name dir r1.1
    if r2.2 then .ok r2
    else tryAsm env name dir r2.1

/-- The import-loading loop over include directories (sema.cc lines
702-733): directories are searched in order; the first directory that
loads wins. -/
def LoadImport (env : LoadEnv) (name : String) : List String → List String →
    Except LoadErr (List String × Bool)
  | [], tried => .ok (tried, false)
  | d :: rest, tried => do
      let r ← loadFromDir env name d tried
      if r.2 then .ok r
      else LoadImport env name rest r.1

/-- Candidate classes, for the spec-side flat search. -/
inductive CandK where
  | gmetaK
  | objectK
  | asmK
deriving DecidableEq

/-- The ordered flat candidate list the spec describes: for each directory
in order, the gmeta file, then the object files, then the assembly file. -/
def specCands (name : String) (dirs : List String) : List (CandK × String) :=
  dirs.flatMap (fun d =>
    (CandK.gmetaK, d ++ "/" ++ name ++ ".gmeta")
      :: (objectPaths name d).map (fun p => (CandK.objectK, p))
      ++ [(CandK.asmK, d ++ "/" ++ name ++ ".s")])

/-- Spec-side probe of one candidate: `none` when the file does not exist;
otherwise the blob is located (directly for gmeta, through the ELF section
for objects, never for assembly) and must begin with the metadata magic. -/
def specProbe (env : LoadEnv) (c : CandK × String) : Option (Except LoadErr Bool) :=
  match env.fs c.2 with
  | none => none
  | some bytes =>
      match c.1 with
      | .gmetaK =>
          some (if bytes = [] then .error .emptyBlob
                else if bytes.take 4 ≠ metadataMagic then .error .badMagic
                else .ok (env.deser bytes))
      | .objectK =>
          some (if bytes = [] then .error .emptyBlob
                else if 64 ≤ bytes.length ∧ bytes.take 4 = elfMagic then
                  let blob := env.getSection bytes
                  if blob = [] then .error .emptyBlob
                  else if blob.take 4 ≠ metadataMagic then .error .badMagic
                  else .ok (env.deser blob)
                else .error .unrecognizedFormat)
      | .asmK => some (.error .asmTodo)

/-- Spec-side search, following the spec's words: scan the ordered
candidates; the first candidate whose file exists and loads successfully
wins; a hard error aborts. -/
def specScan (env : LoadEnv) : List (CandK × String) → List String →
    Except LoadErr (List String × Bool)
  | [], tried => .ok (tried, false)
  | c :: rest, tried =>
      let tried2 := tried ++ [c.2]
      match specProbe env c with
      | none => specScan env rest tried2
      | some (.error e) => .error e
      | some (.ok true) => .ok (tried2, true)
      | some (.ok false) => specScan env rest tried2

/-! ### Optimal string alignment distance (sema.cc lines 2020-2071) and
the auto-spellcheck of `AnalyseNameRef` (lines 2073-2251) -/

/-- `for (i = 0; i <= m; ++i) ref(i, 0) = i;` where `ref(i,j) = d[i*n+j]`
(the source indexes the `(m+1)*(n+1)` buffer with stride `n`, not `n+1`;
the model reproduces that).  The buffer is a materialised `List Nat`. -/
def osaInitRows (n : Nat) (d : List Nat) : Nat → List Nat
  | 0 => d.set 0 0
  | i + 1 => (osaInitRows n d i).set ((i + 1) * n) (i + 1)

/-- `for (j = 0; j <= n; ++j) ref(0, j) = j;` -/
def osaInitCols (d : List Nat) : Nat → List Nat
  | 0 => d.set 0 0
  | j + 1 => (osaInitCols d j).set (j + 1) (j + 1)

/-- The cell update for row `i` of column `j`: substitution cost, the
three-way minimum, and the adjacent-transposition check. -/
def osaCell (s t : List Char) (n i j : Nat) (d : List Nat) : List Nat :=
  let cost : Nat := if s.getD (i - 1) ' ' = t.getD (j - 1) ' ' then 0 else 1
  let v := min (min (d.getD ((i - 1) * n + j) 0 + 1) (d.getD (i * n + (j - 1)) 0 + 1))
               (d.getD ((i - 1) * n + (j - 1)) 0 + cost)
  let d1 := d.set (i * n + j) v
  if 1 < i ∧ 1 < j ∧ s.getD (i - 1) ' ' = t.getD (j - 2) ' '
       ∧ s.getD (i - 2) ' ' = t.getD (j - 1) ' ' then
    d1.set (i * n + j) (min (d1.getD (i * n + j) 0) (d1.getD ((i - 2) * n + (j - 2)) 0 + 1))
  else d1

/-- The inner loop: rows `1..r` of column `j`, in increasing order. -/
def osaRowPass (s t : List Char) (n j : Nat) (d : List Nat) : Nat → List Nat
  | 0 => d
  | i + 1 => osaCell s t n (i + 1) j (osaRowPass s t n j d i)

/-- The outer loop: columns `1..c`, in increasing order, each running the
full row pass `1..m`. -/
def osaColPass (s t : List Char) (n m : Nat) (d : List Nat) : Nat → List Nat
  | 0 => d
  | j + 1 => osaRowPass s t n (j + 1) (osaColPass s t n m d j) m

/-- `optimal_string_alignment_distance` (sema.cc lines 2020-2071),
transcribed with the source's flat indexing `d[i*n + j]` over a zero
initialised (`calloc`ed) buffer of `(m+1)*(n+1)` cells; the result is
`ref(m, n) = d[m*n + n]`. -/
def optimal_string_alignment_distance (s t : List Char) : Nat :=
  let m := s.length
  let n := t.length
  let d0 : List Nat := List.replicate ((m + 1) * (n + 1)) 0
  let d1 := osaInitRows n d0 m
  let d2 := osaInitCols d1 n
  let d3 := osaColPass s t n m d2 n
  d3.getD (m * n + n) 0

/-- Outcome of `Sema::AnalyseNameRef` for a name with no declaration in
scope (sema.cc lines 2081-2182). -/
inductive NRes where
  | moduleRef
  | retargeted (declId : Nat)
  | unknown (suggestStatic : Bool) (note : Option Nat)
deriving DecidableEq

/-- The nearest-declaration scan (sema.cc lines 2097-2111): `least_distance`
starts at `size_t(-1)`; each declaration strictly closer than the best so
far replaces it; a distance of zero fails an assertion. -/
def scanLeast (name : List Char) :
    List (Nat × List Char) → (Option (Nat × List Char) × Nat) →
    Except Crash (Option (Nat × List Char) × Nat)
  | [], acc => .ok acc
  | d :: rest, (best, least) =>
      let dist := optimal_string_alignment_distance name d.2
      if dist = 0 then .error .assertFail
      else if dist < least then scanLeast name rest (some d, dist)
      else scanLeast name rest (best, least)

/-- The missing-name branch of `Sema::AnalyseNameRef` (sema.cc lines
2081-2182): imported-module names resolve to a module expression; a unique
nearest declaration at distance 1 with the same length (> 2) silently
retargets the reference with a warning; otherwise an unknown-symbol error
with optional notes (a top-level declaration of the same name, and the
nearest candidate provided it is not a short name at distance > 1). -/
def AnalyseMissingNameRef (name : List Char) (imports : List (List Char))
    (decls : List (Nat × List Char)) (topLevelHasName : Bool) :
    Except Crash NRes :=
  if name ∈ imports then .ok .moduleRef
  else do
    let r ← scanLeast name decls (none, 2 ^ 64 - 1)
    match r.1 with
    | some d =>
        if r.2 = 1 ∧ 2 < name.length ∧ name.length = d.2.length then
          .ok (.retargeted d.1)
        else
          .ok (.unknown topLevelHasName
                 (if d.2.length < 5 ∧ ¬ (r.2 ≤ 1) then none else some d.1))
    | none => .ok (.unknown topLevelHasName none)

/-- A concrete loader environment: the only file present is `inc2/m.o`, a
64-byte ELF object whose metadata section begins with the metadata magic
and deserialises successfully. -/
def envW : LoadEnv :=
  { fs := fun p =>
      if p = "inc2/m.o" then
        some ([0x7f, 0x45, 0x4c, 0x46] ++ List.replicate 60 0)
      else none
    getSection := fun _ => [1, 0xC0, 0xFF, 0xEE, 9]
    deser := fun _ => true }

/-! ## Helper lemmas -/

theorem l2rFuel_false_type (fuel : Nat) (e : GExpr) :
    (l2rFuel fuel false e).type = e.type := by
  cases fuel with
  | zero => rfl
  | succ f =>
      unfold l2rFuel
      split
      · rfl
      · dsimp only
        split
        · simp only [Bool.false_eq_true, if_false]
          split <;> simp [GExpr.type]
        · split <;> simp [GExpr.type]

theorem LValueToRValue_false_type (e : GExpr) :
    (LValueToRValue false e).type = e.type :=
  l2rFuel_false_type _ e

theorem l2rFuel_false_eval (fuel : Nat) (e : GExpr) :
    (l2rFuel fuel false e).eval = e.eval := by
  cases fuel with
  | zero => rfl
  | succ f =>
      unfold l2rFuel
      split
      · rfl
      · dsimp only
        split
        · simp only [Bool.false_eq_true, if_false]
          split <;> simp [GExpr.eval]
        · split <;> simp [GExpr.eval]

theorem LValueToRValue_false_eval (e : GExpr) :
    (LValueToRValue false e).eval = e.eval :=
  l2rFuel_false_eval _ e

theorem deprocApplicable_false_of_type (e : GExpr)
    (h : (match e.type with
          | .fn _ ps _ => ps = 0
          | .ptr (.fn _ ps _) => ps = 0
          | _ => false) = false) :
    deprocApplicable e = false := by
  unfold deprocApplicable
  rw [h]
  simp

theorem tryConvertNum_slot (score2 : Int) (slot : GExpr) (tgt : GType)
    (h : deprocApplicable slot = false) :
    (ConvertNum false score2 slot tgt).2 = slot := by
  unfold ConvertNum
  dsimp only
  repeat' split
  all_goals first | rfl | contradiction | simp_all

theorem tryConvertPtrArr_slot (score2 : Int) (slot : GExpr) (tgt : GType)
    (h : deprocApplicable slot = false) :
    (ConvertPtrArr false score2 slot tgt).2 = slot := by
  unfold ConvertPtrArr
  dsimp only
  repeat' split
  all_goals first | rfl | contradiction | exact tryConvertNum_slot _ _ _ h

theorem tryConvertRest_slot (score2 : Int) (slot : GExpr) (tgt : GType)
    (h : deprocApplicable slot = false) :
    (ConvertRest false score2 slot tgt).2 = slot := by
  unfold ConvertRest
  dsimp only
  repeat' split
  all_goals first | rfl | contradiction | (exact tryConvertPtrArr_slot _ _ _ h) | simp_all

/-- C1 (counterexample): `TryConvert` does not always leave the expression
slot unchanged.  For a name reference to a zero-argument function converted
towards its return type, the deproceduring step — which `ConvertImpl` runs
regardless of the perform/score mode — replaces the slot with an implicit
call even under `TryConvert`. -/
theorem C1_tryconvert_mutates :
    (TryConvert (GExpr.fnRef 0 (GType.fn (GType.int true 64) 0 noAttrs))
        (GType.int true 64)).2
      ≠ GExpr.fnRef 0 (GType.fn (GType.int true 64) 0 noAttrs) := by
  intro h
  exact absurd
    (show GExpr.callE (GExpr.fnRef 0 (GType.fn (GType.int true 64) 0 noAttrs)) []
        = GExpr.fnRef 0 (GType.fn (GType.int true 64) 0 noAttrs) from h)
    (by simp)

/-- C1 (amended): for every expression and every type, `TryConvert` only
computes a conversion score and leaves the expression slot unchanged —
provided deproceduring does not apply to the expression (i.e. it is not a
zero-argument function or pointer-to-function value other than a
declaration or block); when deproceduring applies, even `TryConvert`
replaces the expression with an implicit zero-argument call. -/
theorem C1_tryconvert_pure_unless_deproc (e : GExpr) (tgt : GType)
    (h : deprocApplicable e = false) :
    (TryConvert e tgt).2 = e := by
  unfold TryConvert ConvertImpl
  dsimp only
  repeat' split
  all_goals first | rfl | contradiction | (exact tryConvertRest_slot _ _ _ h) | simp_all

/-- C1 (witness): the amended theorem applied at a concrete input. -/
theorem C1_witness :
    deprocApplicable (GExpr.intLit 5) = false
      ∧ (TryConvert (GExpr.intLit 5) GType.bool).2 = GExpr.intLit 5 :=
  ⟨rfl, C1_tryconvert_pure_unless_deproc (GExpr.intLit 5) GType.bool rfl⟩

/-- C4 (code bug): analysing a return expression with no operand
dereferences the missing operand.  The dynamic-array check at sema.cc line
944 reads `r->value()->type()` before the null checks at lines 950-960, so
`return;` — which the claim (and the code's own later null check) says
should succeed in a void function and produce the missing-value error in a
non-void function — crashes instead. -/
theorem C4_return_missing_operand_crash :
    AnalyseReturn GType.void ⟨[], [], [], false⟩ none
        = Except.error Crash.nullDereference
      ∧ AnalyseReturn (GType.int true 64) ⟨[], [], [], false⟩ none
        = Except.error Crash.nullDereference :=
  ⟨rfl, rfl⟩

/-- C9 (code bug): an enumerator without an initialiser that follows an
initialised enumerator does not receive the previous value plus one.  After
`A := 5`, the code sets `next_val` to 6 ("the next value the compiler will
assign automatically", sema.cc lines 2825-2828) but the no-initialiser path
then assigns `++next_val` (line 2746), so `B` receives 7, contradicting the
claim's `previous + 1` rule (which holds at the start and between
consecutive automatic enumerators: the third conjunct).  Duplicate names
are still rejected (fourth conjunct). -/
theorem C9_enum_after_init_divergence :
    AnalyseEnum [(0, some 5), (1, none)] = some [5, 7]
      ∧ AnalyseEnum [(0, some 5), (1, none)] ≠ some [5, 6]
      ∧ AnalyseEnum [(0, none), (1, none), (2, none)] = some [0, 1, 2]
      ∧ AnalyseEnum [(0, some 5), (0, none)] = none :=
  ⟨rfl, by decide, rfl, rfl⟩

/-- C2 (counterexample): a soft (`as`) explicit cast from an enum type to an
integer type is accepted without any diagnostic (sema.cc line 1879 allows
enum-to-integer casts before any hard-cast check), contradicting the claim
that enum-to-integer requires the hard form.  The same holds for a soft
pointer-to-integer cast (line 1882). -/
theorem C2_soft_enum_ptr_to_int_no_error :
    (AnalyseCast .softC (GExpr.varRef 0 (GType.enum (GType.int true 64)))
        (GType.int true 64)).1 = []
      ∧ (AnalyseCast .softC (GExpr.varRef 0 (GType.ptr (GType.int true 64)))
          (GType.int true 64)).1 = [] :=
  ⟨rfl, rfl⟩

theorem convertImpl_int_to_enum (e : GExpr) (fs : Bool) (fb : Nat) (u : GType)
    (ht : e.type = .int fs fb) :
    ConvertImpl true e (.enum u) = (-1, LValueToRValue false e) := by
  unfold ConvertImpl
  dsimp only
  rw [ht]
  have hs : (LValueToRValue false e).type = GType.int fs fb := by
    rw [LValueToRValue_false_type, ht]
  have hd : deprocApplicable (LValueToRValue false e) = false := by
    apply deprocApplicable_false_of_type
    rw [hs]
  simp [ConvertRest, ConvertPtrArr, ConvertNum, hs, hd,
        refBindOk, fnToPtrOk, bothArr,
        GType.isVoid, GType.isRef, GType.isPtr, GType.isBool, GType.isIntStrict,
        GType.isEnum]

theorem convertImpl_int_to_ptr (e : GExpr) (fs : Bool) (fb : Nat) (pe : GType)
    (ht : e.type = .int fs fb) :
    ConvertImpl true e (.ptr pe) = (-1, LValueToRValue false e) := by
  unfold ConvertImpl
  dsimp only
  rw [ht]
  have hs : (LValueToRValue false e).type = GType.int fs fb := by
    rw [LValueToRValue_false_type, ht]
  have hd : deprocApplicable (LValueToRValue false e) = false := by
    apply deprocApplicable_false_of_type
    rw [hs]
  simp [ConvertRest, ConvertPtrArr, ConvertNum, hs, hd,
        refBindOk, fnToPtrOk, bothArr,
        GType.isVoid, GType.isRef, GType.isPtr, GType.isBool, GType.isIntStrict,
        GType.isEnum]

theorem convertImpl_enum_to_int (e : GExpr) (u : GType) (ts : Bool) (tb : Nat)
    (ht : e.type = .enum u) :
    ConvertImpl true e (.int ts tb) = (-1, LValueToRValue false e) := by
  unfold ConvertImpl
  dsimp only
  rw [ht]
  have hs : (LValueToRValue false e).type = GType.enum u := by
    rw [LValueToRValue_false_type, ht]
  have hd : deprocApplicable (LValueToRValue false e) = false := by
    apply deprocApplicable_false_of_type
    rw [hs]
  simp [ConvertRest, ConvertPtrArr, ConvertNum, hs, hd,
        refBindOk, fnToPtrOk, bothArr,
        GType.isVoid, GType.isRef, GType.isPtr, GType.isBool, GType.isIntStrict,
        GType.isEnum]

theorem convertImpl_ptr_to_int (e : GExpr) (pe : GType) (ts : Bool) (tb : Nat)
    (ht : e.type = .ptr pe) (hpe : pe.isFunc = false) :
    ConvertImpl true e (.int ts tb) = (-1, LValueToRValue false e) := by
  unfold ConvertImpl
  dsimp only
  rw [ht]
  have hs : (LValueToRValue false e).type = GType.ptr pe := by
    rw [LValueToRValue_false_type, ht]
  have hd : deprocApplicable (LValueToRValue false e) = false := by
    apply deprocApplicable_false_of_type
    rw [hs]
    cases pe <;> simp_all [GType.isFunc]
  simp [ConvertRest, ConvertPtrArr, ConvertNum, hs, hd,
        refBindOk, fnToPtrOk, bothArr,
        GType.isVoid, GType.isRef, GType.isPtr, GType.isBool, GType.isIntStrict,
        GType.isEnum]

theorem convertImpl_ptr_to_ptr_incompat (e : GExpr) (pe te : GType)
    (ht : e.type = .ptr pe) (hpe : pe.isFunc = false)
    (harr : ∀ ae d, pe = GType.arr ae d → ae ≠ te)
    (hne : GType.ptr pe ≠ GType.ptr te) (hv : te ≠ GType.void) :
    ConvertImpl true e (.ptr te) = (-1, LValueToRValue false e) := by
  unfold ConvertImpl
  dsimp only
  rw [ht]
  have hs : (LValueToRValue false e).type = GType.ptr pe := by
    rw [LValueToRValue_false_type, ht]
  have hd : deprocApplicable (LValueToRValue false e) = false := by
    apply deprocApplicable_false_of_type
    rw [hs]
    cases pe <;> simp_all [GType.isFunc]
  have hrb : refBindOk (GType.ptr pe) (GType.ptr te) = false := rfl
  have hstep : ConvertRest true (if e.lval = true then (1:Int) else 0)
      (LValueToRValue false e) (.ptr te) = (-1, LValueToRValue false e) := by
    unfold ConvertRest ConvertPtrArr ConvertNum
    dsimp only
    rw [hs]
    cases pe with
    | arr ae d =>
        have hae : ae ≠ te := harr ae d rfl
        simp_all [fnToPtrOk, ptrElemMatches, bothArr, GType.isPtr, GType.isBool,
                  GType.isIntStrict]
    | _ =>
        simp_all [fnToPtrOk, ptrElemMatches, bothArr, GType.isPtr, GType.isBool,
                  GType.isIntStrict]
  simp [hrb, hs, hstep, refBindOk, GType.isVoid, GType.isRef, hne]

theorem convertImpl_int_to_samesize_arr (e : GExpr) (fs ts : Bool)
    (ht : e.type = .int fs 32) :
    ConvertImpl true e (.arr (.int ts 32) 1) = (-1, LValueToRValue false e) := by
  unfold ConvertImpl
  dsimp only
  rw [ht]
  have hs : (LValueToRValue false e).type = GType.int fs 32 := by
    rw [LValueToRValue_false_type, ht]
  have hd : deprocApplicable (LValueToRValue false e) = false := by
    apply deprocApplicable_false_of_type
    rw [hs]
  simp [ConvertRest, ConvertPtrArr, ConvertNum, hs, hd,
        refBindOk, fnToPtrOk, bothArr,
        GType.isVoid, GType.isRef, GType.isPtr, GType.isBool, GType.isIntStrict,
        GType.isEnum]

theorem analyseCast_int_to_enum (e : GExpr) (fs : Bool) (fb : Nat) (u : GType)
    (ht : e.type = .int fs fb) (hok : e.isOk = true) :
    (AnalyseCast .softC e (.enum u)).1 = [.unsafeCastUseHard]
      ∧ (AnalyseCast .hardC e (.enum u)).1 = [] := by
  have hc := convertImpl_int_to_enum e fs fb u ht
  have hs : (LValueToRValue false e).type = GType.int fs fb := by
    rw [LValueToRValue_false_type, ht]
  constructor <;>
  · unfold AnalyseCast
    simp [Convert, hok, hc, hs, GType.isRef, GType.isIntIncl, GType.isEnum, GType.isPtr]

theorem analyseCast_enum_to_int (e : GExpr) (u : GType) (ts : Bool) (tb : Nat)
    (ht : e.type = .enum u) (hok : e.isOk = true) :
    (AnalyseCast .softC e (.int ts tb)).1 = [] := by
  have hc := convertImpl_enum_to_int e u ts tb ht
  have hs : (LValueToRValue false e).type = GType.enum u := by
    rw [LValueToRValue_false_type, ht]
  unfold AnalyseCast
  simp [Convert, hok, hc, hs, GType.isRef, GType.isIntIncl, GType.isEnum, GType.isPtr]

theorem analyseCast_ptr_to_int (e : GExpr) (pe : GType) (ts : Bool) (tb : Nat)
    (ht : e.type = .ptr pe) (hpe : pe.isFunc = false) (hok : e.isOk = true) :
    (AnalyseCast .softC e (.int ts tb)).1 = [] := by
  have hc := convertImpl_ptr_to_int e pe ts tb ht hpe
  have hs : (LValueToRValue false e).type = GType.ptr pe := by
    rw [LValueToRValue_false_type, ht]
  unfold AnalyseCast
  simp [Convert, hok, hc, hs, GType.isRef, GType.isIntIncl, GType.isEnum, GType.isPtr]

theorem analyseCast_int_to_ptr (e : GExpr) (fs : Bool) (fb : Nat) (pe : GType)
    (ht : e.type = .int fs fb) (hok : e.isOk = true) :
    (AnalyseCast .softC e (.ptr pe)).1 = [.unsafeCastUseHard]
      ∧ (AnalyseCast .hardC e (.ptr pe)).1 = [] := by
  have hc := convertImpl_int_to_ptr e fs fb pe ht
  have hs : (LValueToRValue false e).type = GType.int fs fb := by
    rw [LValueToRValue_false_type, ht]
  constructor <;>
  · unfold AnalyseCast
    simp [Convert, hok, hc, hs, GType.isRef, GType.isIntIncl, GType.isEnum,
          GType.isPtr, GType.isIntStrict]

theorem analyseCast_ptr_to_ptr (e : GExpr) (pe te : GType)
    (ht : e.type = .ptr pe) (hpe : pe.isFunc = false)
    (harr : ∀ ae d, pe = GType.arr ae d → ae ≠ te)
    (hne : GType.ptr pe ≠ GType.ptr te) (hv : te ≠ GType.void)
    (hok : e.isOk = true) :
    (AnalyseCast .softC e (.ptr te)).1 = [.unsafeCastUseHard]
      ∧ (AnalyseCast .hardC e (.ptr te)).1 = [] := by
  have hc := convertImpl_ptr_to_ptr_incompat e pe te ht hpe harr hne hv
  have hs : (LValueToRValue false e).type = GType.ptr pe := by
    rw [LValueToRValue_false_type, ht]
  constructor <;>
  · unfold AnalyseCast
    simp [Convert, hok, hc, hs, GType.isRef, GType.isIntIncl, GType.isEnum,
          GType.isPtr, GType.isIntStrict]

theorem analyseCast_same_size (e : GExpr) (fs ts : Bool)
    (ht : e.type = .int fs 32) (hok : e.isOk = true) :
    (AnalyseCast .softC e (.arr (.int ts 32) 1)).1 = [.invalidCast]
      ∧ (AnalyseCast .hardC e (.arr (.int ts 32) 1)).1 = [] := by
  have hc := convertImpl_int_to_samesize_arr e fs ts ht
  have hs : (LValueToRValue false e).type = GType.int fs 32 := by
    rw [LValueToRValue_false_type, ht]
  constructor <;>
  · unfold AnalyseCast
    simp [Convert, hok, hc, hs, GType.isRef, GType.isIntIncl, GType.isEnum,
          GType.isPtr, GType.isIntStrict, GType.sizeBits]

/-- C2 (amended): in an explicit cast whose operand does not convert
implicitly, integer-to-enum, integer-to-pointer, pointer-to-pointer between
incompatible (non-function-pointee) pointer types, and equal-size
reinterpretation are accepted only with the hard form (`as!`) — the soft
form emits an error — whereas enum-to-integer and pointer-to-integer casts
are accepted even with the soft form, without any diagnostic. -/
theorem C2_cast_hardness :
    (∀ (e : GExpr) (fs : Bool) (fb : Nat) (u : GType),
        e.type = .int fs fb → e.isOk = true →
        (AnalyseCast .softC e (.enum u)).1 = [.unsafeCastUseHard]
          ∧ (AnalyseCast .hardC e (.enum u)).1 = [])
    ∧ (∀ (e : GExpr) (u : GType) (ts : Bool) (tb : Nat),
        e.type = .enum u → e.isOk = true →
        (AnalyseCast .softC e (.int ts tb)).1 = [])
    ∧ (∀ (e : GExpr) (pe : GType) (ts : Bool) (tb : Nat),
        e.type = .ptr pe → pe.isFunc = false → e.isOk = true →
        (AnalyseCast .softC e (.int ts tb)).1 = [])
    ∧ (∀ (e : GExpr) (fs : Bool) (fb : Nat) (pe : GType),
        e.type = .int fs fb → e.isOk = true →
        (AnalyseCast .softC e (.ptr pe)).1 = [.unsafeCastUseHard]
          ∧ (AnalyseCast .hardC e (.ptr pe)).1 = [])
    ∧ (∀ (e : GExpr) (pe te : GType),
        e.type = .ptr pe → pe.isFunc = false →
        (∀ ae d, pe = GType.arr ae d → ae ≠ te) →
        GType.ptr pe ≠ GType.ptr te → te ≠ GType.void → e.isOk = true →
        (AnalyseCast .softC e (.ptr te)).1 = [.unsafeCastUseHard]
          ∧ (AnalyseCast .hardC e (.ptr te)).1 = [])
    ∧ (∀ (e : GExpr) (fs ts : Bool),
        e.type = .int fs 32 → e.isOk = true →
        (AnalyseCast .softC e (.arr (.int ts 32) 1)).1 = [.invalidCast]
          ∧ (AnalyseCast .hardC e (.arr (.int ts 32) 1)).1 = []) :=
  ⟨fun e fs fb u ht hok => analyseCast_int_to_enum e fs fb u ht hok,
   fun e u ts tb ht hok => analyseCast_enum_to_int e u ts tb ht hok,
   fun e pe ts tb ht hpe hok => analyseCast_ptr_to_int e pe ts tb ht hpe hok,
   fun e fs fb pe ht hok => analyseCast_int_to_ptr e fs fb pe ht hok,
   fun e pe te ht hpe harr hne hv hok =>
     analyseCast_ptr_to_ptr e pe te ht hpe harr hne hv hok,
   fun e fs ts ht hok => analyseCast_same_size e fs ts ht hok⟩

/-- C2 (witness): the amended theorem applied at concrete inputs: a soft
integer-to-enum cast errors while the hard form is accepted, and a soft
pointer-to-pointer cast between incompatible pointer types errors. -/
theorem C2_witness :
    ((AnalyseCast .softC (GExpr.varRef 0 (GType.int true 64))
        (.enum (.int true 64))).1 = [.unsafeCastUseHard]
      ∧ (AnalyseCast .hardC (GExpr.varRef 0 (GType.int true 64))
          (.enum (.int true 64))).1 = [])
    ∧ ((AnalyseCast .softC (GExpr.varRef 0 (GType.ptr GType.bool))
        (.ptr (GType.int true 64))).1 = [.unsafeCastUseHard]
      ∧ (AnalyseCast .hardC (GExpr.varRef 0 (GType.ptr GType.bool))
          (.ptr (GType.int true 64))).1 = []) :=
  ⟨C2_cast_hardness.1 (GExpr.varRef 0 (GType.int true 64)) true 64
      (.int true 64) rfl rfl,
   C2_cast_hardness.2.2.2.2.1 (GExpr.varRef 0 (GType.ptr GType.bool))
      GType.bool (GType.int true 64) rfl rfl
      (fun ae d h => by cases h)
      (by simp) (by simp) rfl⟩

theorem convertImpl_int_int_const (e : GExpr) (fs ts : Bool) (fb tb : Nat) (v : Nat)
    (ht : e.type = .int fs fb) (hev : GExpr.eval e = some v)
    (hne : GType.int fs fb ≠ GType.int ts tb) :
    ConvertImpl true e (.int ts tb) =
      (if sltZero v = true ∧ ts = false then (-1, LValueToRValue false e)
       else if fs = false ∧ tb < 64 ∧ maxBitValue tb < v then
         (-1, LValueToRValue false e)
       else ((if e.lval = true then (1:Int) else 0) + 1,
             GExpr.constE v
               (GExpr.castE .implicitC (.int ts tb) (LValueToRValue false e)))) := by
  unfold ConvertImpl
  dsimp only
  rw [ht]
  have hs : (LValueToRValue false e).type = GType.int fs fb := by
    rw [LValueToRValue_false_type, ht]
  have hd : deprocApplicable (LValueToRValue false e) = false := by
    apply deprocApplicable_false_of_type
    rw [hs]
  have he2 : (LValueToRValue false e).eval = some v := by
    rw [LValueToRValue_false_eval, hev]
  simp [ConvertRest, ConvertPtrArr, ConvertNum, hs, hd, he2, hne,
        refBindOk, fnToPtrOk, bothArr,
        GType.isVoid, GType.isRef, GType.isPtr, GType.isBool, GType.isIntStrict,
        GType.isUnsignedInt, GType.sizeBits, Bool.not_eq_true']

theorem convertImpl_int_int_nonconst (e : GExpr) (fs ts : Bool) (fb tb : Nat)
    (ht : e.type = .int fs fb) (hev : GExpr.eval e = none)
    (hne : GType.int fs fb ≠ GType.int ts tb) :
    ConvertImpl true e (.int ts tb) =
      (if fb ≤ tb then
         ((if e.lval = true then (1:Int) else 0) + 1,
          GExpr.castE .implicitC (.int ts tb) (LValueToRValue false e))
       else (-1, LValueToRValue false e)) := by
  unfold ConvertImpl
  dsimp only
  rw [ht]
  have hs : (LValueToRValue false e).type = GType.int fs fb := by
    rw [LValueToRValue_false_type, ht]
  have hd : deprocApplicable (LValueToRValue false e) = false := by
    apply deprocApplicable_false_of_type
    rw [hs]
  have he2 : (LValueToRValue false e).eval = none := by
    rw [LValueToRValue_false_eval, hev]
  simp [ConvertRest, ConvertPtrArr, ConvertNum, hs, hd, he2, hne,
        refBindOk, fnToPtrOk, bothArr,
        GType.isVoid, GType.isRef, GType.isPtr, GType.isBool, GType.isIntStrict,
        GType.isUnsignedInt, GType.sizeBits]

/-- C3 (counterexample): the implicit conversion of the compile-time
constant 300 — an integer literal, of signed 64-bit `int` type — to an
unsigned 8-bit destination succeeds (score 1, a `ConstantExpr` is
produced), although 300 exceeds `2^8 − 1 = 255`: the overflow check at
sema.cc lines 202-206 only fires when the *source* type is unsigned, so
"the conversion succeeds if and only if the value fits in the destination"
is false. -/
theorem C3_signed_constant_overflow_allowed :
    (ConvertImpl true (GExpr.intLit 300) (GType.int false 8)).1 = 1
      ∧ maxBitValue 8 < 300
      ∧ (GExpr.intLit 300).type = GType.int true 64 :=
  ⟨rfl, by decide, rfl⟩

/-- C3 (amended): for an implicit integer-to-integer conversion between
distinct integer types: when the source expression evaluates to a
compile-time constant (a 64-bit pattern `v`), the conversion succeeds if
and only if neither (the value is negative — sign bit set — and the
destination is unsigned) nor (the *source type* is unsigned, the
destination width is below 64, and the value exceeds `2^width − 1`); on
success the source expression is replaced by a `ConstantExpr`.  For a
non-constant source the conversion is allowed if and only if the source
type's size is at most the destination type's size. -/
theorem C3_int_to_int_conversion :
    (∀ (e : GExpr) (fs ts : Bool) (fb tb : Nat) (v : Nat),
        e.type = .int fs fb →
        GExpr.eval e = some v →
        GType.int fs fb ≠ GType.int ts tb →
        ((0 ≤ (ConvertImpl true e (.int ts tb)).1 ↔
            ¬ (sltZero v = true ∧ ts = false)
              ∧ ¬ (fs = false ∧ tb < 64 ∧ maxBitValue tb < v))
          ∧ (0 ≤ (ConvertImpl true e (.int ts tb)).1 →
              (ConvertImpl true e (.int ts tb)).2
                = GExpr.constE v
                    (GExpr.castE .implicitC (.int ts tb) (LValueToRValue false e)))))
    ∧ (∀ (e : GExpr) (fs ts : Bool) (fb tb : Nat),
        e.type = .int fs fb →
        GExpr.eval e = none →
        GType.int fs fb ≠ GType.int ts tb →
        (0 ≤ (ConvertImpl true e (.int ts tb)).1 ↔ fb ≤ tb)) := by
  constructor
  · intro e fs ts fb tb v ht hev hne
    rw [convertImpl_int_int_const e fs ts fb tb v ht hev hne]
    constructor
    · split_ifs with h1 h2 <;> simp_all <;> cases e.lval <;> norm_num
    · intro hpos
      split_ifs at hpos ⊢ with h1 h2 <;> first | rfl | norm_num at hpos
  · intro e fs ts fb tb ht hev hne
    rw [convertImpl_int_int_nonconst e fs ts fb tb ht hev hne]
    split_ifs with h1 <;> simp_all <;> cases e.lval <;> norm_num

/-- C3 (witness): the amended theorem applied at concrete inputs: the
unsigned-typed constant 300 cannot convert to a signed 8-bit destination,
and a non-constant 32-bit variable converts to a 64-bit destination. -/
theorem C3_witness :
    (¬ (0 ≤ (ConvertImpl true
          (GExpr.constE 300 (GExpr.castE .implicitC (GType.int false 64)
            (GExpr.intLit 300)))
          (GType.int true 8)).1))
      ∧ (0 ≤ (ConvertImpl true (GExpr.varRef 7 (GType.int true 32))
            (GType.int true 64)).1) := by
  constructor
  · have h := (C3_int_to_int_conversion.1
      (GExpr.constE 300 (GExpr.castE .implicitC (GType.int false 64)
        (GExpr.intLit 300)))
      false true 64 8 300 rfl rfl (by decide)).1
    rw [h]
    decide
  · have h := C3_int_to_int_conversion.2
      (GExpr.varRef 7 (GType.int true 32)) true true 32 64 rfl rfl (by decide)
    rw [h]
    decide

theorem alignTo_ge (v a : Nat) (ha : 1 ≤ a) : v ≤ alignTo v a := by
  unfold alignTo
  have h1 := Nat.div_add_mod (v + a - 1) a
  have h2 := Nat.mod_lt (v + a - 1) (show 0 < a from ha)
  rw [Nat.mul_comm]
  omega

theorem alignTo_dvd (v a : Nat) : a ∣ alignTo v a :=
  dvd_mul_left a ((v + a - 1) / a)

theorem layoutMembers_offsets (ms : List (Nat × Nat)) :
    ∀ run al, (layoutMembers ms run al).1 = specOffsets ms run := by
  induction ms with
  | nil => intro run al; rfl
  | cons m rest ih =>
      intro run al
      cases m with
      | mk sz mal =>
          simp [layoutMembers, specOffsets, ih]

theorem specOffsets_head_ge (ms : List (Nat × Nat)) :
    ∀ run, (∀ m ∈ ms, 1 ≤ m.2) →
      ∀ x ∈ (specOffsets ms run).head?, run ≤ x := by
  cases ms with
  | nil => intro run _ x hx; simp [specOffsets] at hx
  | cons m rest =>
      intro run h x hx
      cases m with
      | mk sz mal =>
          simp [specOffsets] at hx
          subst hx
          exact alignTo_ge run mal (h (sz, mal) (by simp))

theorem specOffsets_chain (ms : List (Nat × Nat)) :
    ∀ run, (∀ m ∈ ms, 1 ≤ m.2) → List.Chain' (· ≤ ·) (specOffsets ms run) := by
  induction ms with
  | nil => intro run _; simp [specOffsets]
  | cons m rest ih =>
      intro run h
      cases m with
      | mk sz mal =>
          rw [specOffsets, List.chain'_cons']
          refine ⟨?_, ih _ (fun x hx => h x (by simp [hx]))⟩
          intro y hy
          have h2 := specOffsets_head_ge rest (alignTo run mal + sz)
            (fun x hx => h x (by simp [hx])) y hy
          omega

theorem layoutMembers_cons (sz mal : Nat) (rest : List (Nat × Nat)) (run al : Nat) :
    layoutMembers ((sz, mal) :: rest) run al =
      (alignTo run mal :: (layoutMembers rest (alignTo run mal + sz) (max al mal)).1,
       (layoutMembers rest (alignTo run mal + sz) (max al mal)).2) := rfl

theorem layoutMembers_align (ms : List (Nat × Nat)) :
    ∀ run al,
      (al ≤ (layoutMembers ms run al).2.2
        ∧ (∀ m ∈ ms, m.2 ≤ (layoutMembers ms run al).2.2)
        ∧ ((layoutMembers ms run al).2.2 = al
            ∨ ∃ m ∈ ms, (layoutMembers ms run al).2.2 = m.2)) := by
  induction ms with
  | nil => intro run al; simp [layoutMembers]
  | cons m rest ih =>
      intro run al
      cases m with
      | mk sz mal =>
          rw [layoutMembers_cons]
          dsimp only
          have hrec := ih (alignTo run mal + sz) (max al mal)
          refine ⟨?_, ?_, ?_⟩
          · calc al ≤ max al mal := le_max_left _ _
              _ ≤ _ := hrec.1
          · intro x hx
            rcases List.mem_cons.mp hx with h1 | h1
            · subst h1
              calc mal ≤ max al mal := le_max_right _ _
                _ ≤ _ := hrec.1
            · exact hrec.2.1 x h1
          · rcases hrec.2.2 with h1 | ⟨m2, hm2, he⟩
            · rcases Nat.le_total mal al with h2 | h2
              · left
                exact h1.trans (Nat.max_eq_left h2)
              · right
                exact ⟨(sz, mal), by simp, h1.trans (Nat.max_eq_right h2)⟩
            · right
              exact ⟨m2, by simp [hm2], he⟩

/-- C8: for every successfully analysed struct (given as its members' byte
sizes and byte alignments, each alignment at least 1): the member offsets
are exactly the running size aligned up to each member's alignment
(`specOffsets`, the claim's formula), offsets are monotonically
non-decreasing, the struct alignment is the maximum of the members'
alignments (at least 1), and the struct byte size is the running
(padded-members) size aligned up to the struct alignment — hence divisible
by it — with a zero running size (in particular an empty struct) yielding
size 0. -/
theorem C8_struct_layout (members : List (Nat × Nat))
    (h : ∀ m ∈ members, 1 ≤ m.2) :
    (AnalyseStruct members).offsets = specOffsets members 0
      ∧ List.Chain' (· ≤ ·) (AnalyseStruct members).offsets
      ∧ 1 ≤ (AnalyseStruct members).alignment
      ∧ (∀ m ∈ members, m.2 ≤ (AnalyseStruct members).alignment)
      ∧ ((AnalyseStruct members).alignment = 1
          ∨ ∃ m ∈ members, (AnalyseStruct members).alignment = m.2)
      ∧ (AnalyseStruct members).byteSize
          = (if (AnalyseStruct members).runSize = 0 then 0
             else alignTo (AnalyseStruct members).runSize
                    (AnalyseStruct members).alignment)
      ∧ (AnalyseStruct members).alignment ∣ (AnalyseStruct members).byteSize
      ∧ (members = [] → (AnalyseStruct members).byteSize = 0) := by
  have halign := layoutMembers_align members 0 1
  have hoffs := layoutMembers_offsets members 0 1
  refine ⟨hoffs, ?_, halign.1, halign.2.1, halign.2.2, ?_, ?_, ?_⟩
  · show List.Chain' (· ≤ ·) (layoutMembers members 0 1).1
    rw [hoffs]
    exact specOffsets_chain members 0 h
  · by_cases hr : (layoutMembers members 0 1).2.1 = 0 <;> simp [AnalyseStruct, hr]
  · by_cases hr : (layoutMembers members 0 1).2.1 = 0
    · simp [AnalyseStruct, hr]
    · have hb : (AnalyseStruct members).byteSize
          = alignTo (layoutMembers members 0 1).2.1 (layoutMembers members 0 1).2.2 := by
        simp [AnalyseStruct, hr]
      rw [hb]
      exact alignTo_dvd _ _
  · intro hm
    subst hm
    rfl

/-- C8 (witness): the theorem applied to a concrete three-member struct
(sizes/alignments 4/4, 1/1, 8/8 bytes). -/
theorem C8_witness :
    (∀ m ∈ [(4, 4), (1, 1), (8, 8)], 1 ≤ (m : Nat × Nat).2)
      ∧ ((AnalyseStruct [(4, 4), (1, 1), (8, 8)]).offsets
            = specOffsets [(4, 4), (1, 1), (8, 8)] 0
          ∧ List.Chain' (· ≤ ·) (AnalyseStruct [(4, 4), (1, 1), (8, 8)]).offsets
          ∧ 1 ≤ (AnalyseStruct [(4, 4), (1, 1), (8, 8)]).alignment
          ∧ (∀ m ∈ [(4, 4), (1, 1), (8, 8)],
              (m : Nat × Nat).2 ≤ (AnalyseStruct [(4, 4), (1, 1), (8, 8)]).alignment)
          ∧ ((AnalyseStruct [(4, 4), (1, 1), (8, 8)]).alignment = 1
              ∨ ∃ m ∈ [(4, 4), (1, 1), (8, 8)],
                  (AnalyseStruct [(4, 4), (1, 1), (8, 8)]).alignment
                    = (m : Nat × Nat).2)
          ∧ (AnalyseStruct [(4, 4), (1, 1), (8, 8)]).byteSize
              = (if (AnalyseStruct [(4, 4), (1, 1), (8, 8)]).runSize = 0 then 0
                 else alignTo (AnalyseStruct [(4, 4), (1, 1), (8, 8)]).runSize
                        (AnalyseStruct [(4, 4), (1, 1), (8, 8)]).alignment)
          ∧ (AnalyseStruct [(4, 4), (1, 1), (8, 8)]).alignment
              ∣ (AnalyseStruct [(4, 4), (1, 1), (8, 8)]).byteSize
          ∧ ([(4, 4), (1, 1), (8, 8)] = ([] : List (Nat × Nat)) →
              (AnalyseStruct [(4, 4), (1, 1), (8, 8)]).byteSize = 0)) :=
  ⟨by decide, C8_struct_layout [(4, 4), (1, 1), (8, 8)] (by decide)⟩

theorem calleeAttrs_none_of_not_call (e : GExpr) (h : isCallE e = false) :
    calleeAttrs e = none := by
  cases e <;> simp_all [isCallE, calleeAttrs]

theorem discard_call_error (c : GExpr) (args : List GExpr) (a : FuncAttrs)
    (hca : calleeAttrs (GExpr.callE c args) = some a)
    (hda : a.discardable = false)
    (hv : (GExpr.type (GExpr.callE c args)).isVoid = false) :
    Diag.discardNotDiscardable ∈ (Discard (GExpr.callE c args)).1 := by
  unfold Discard
  simp only [GExpr.isOk, hv, Bool.or_self, Bool.false_eq_true, if_false, hca, hda,
             Bool.not_false, if_true]
  cases hdp : Deproceduring (GExpr.callE c args) with
  | some e2 => simp
  | none =>
      by_cases hse : HasSideEffects (GExpr.callE c args) = false <;> simp [hse]

theorem blockDiscard_call_error (pfx : List GExpr) (c : GExpr) (sfx : List GExpr)
    (hs : sfx ≠ [])
    (hin : Diag.discardNotDiscardable ∈ (Discard c).1)
    (hok : c.isOk = true) :
    Diag.discardNotDiscardable ∈ blockDiscardDiags (pfx ++ c :: sfx) := by
  induction pfx with
  | nil =>
      cases sfx with
      | nil => exact absurd rfl hs
      | cons s rest =>
          simp only [List.nil_append, blockDiscardDiags, hok, if_true]
          exact List.mem_append_left _ hin
  | cons p pfx2 ih =>
      have hne : pfx2 ++ c :: sfx ≠ [] := by simp
      cases hsh : pfx2 ++ c :: sfx with
      | nil => exact absurd hsh hne
      | cons y rest =>
          simp only [List.cons_append, hsh, blockDiscardDiags]
          refine List.mem_append_right _ ?_
          rw [← hsh]
          exact ih

theorem discard_noncall_no_error (e : GExpr)
    (hnc : isCallE e = false) (hok : e.isOk = true)
    (hv : (GExpr.type e).isVoid = false)
    (hse : HasSideEffects e = false) :
    (∀ d ∈ (Discard e).1, d = Diag.unusedResult)
      ∧ (Deproceduring e = none → (Discard e).1 = [Diag.unusedResult]) := by
  unfold Discard
  simp only [hok, hv, Bool.or_self, Bool.false_eq_true, if_false,
             calleeAttrs_none_of_not_call e hnc, hse]
  cases hdp : Deproceduring e with
  | some e2 => simp
  | none => simp

/-- C10: discarding a non-void call whose callee's function type lacks the
`discardable` attribute emits an error; in a block, every non-last child
that is such a call is reported; and discarding any non-call, non-void,
side-effect-free expression never produces an error — every diagnostic it
emits is the unused-result warning, and when deproceduring does not apply
the warning is emitted exactly once. -/
theorem C10_discard_behaviour :
    (∀ (c : GExpr) (args : List GExpr) (a : FuncAttrs),
        calleeAttrs (.callE c args) = some a → a.discardable = false →
        (GExpr.type (.callE c args)).isVoid = false →
        Diag.discardNotDiscardable ∈ (Discard (.callE c args)).1)
      ∧ (∀ (pfx : List GExpr) (c0 : GExpr) (args : List GExpr) (a : FuncAttrs)
            (sfx : List GExpr),
          sfx ≠ [] →
          calleeAttrs (.callE c0 args) = some a → a.discardable = false →
          (GExpr.type (.callE c0 args)).isVoid = false →
          Diag.discardNotDiscardable
            ∈ blockDiscardDiags (pfx ++ GExpr.callE c0 args :: sfx))
      ∧ (∀ e : GExpr,
          isCallE e = false → e.isOk = true →
          (GExpr.type e).isVoid = false → HasSideEffects e = false →
          (∀ d ∈ (Discard e).1, d = Diag.unusedResult)
            ∧ (Deproceduring e = none → (Discard e).1 = [Diag.unusedResult])) :=
  ⟨fun c args a hca hda hv => discard_call_error c args a hca hda hv,
   fun pfx c0 args a sfx hs hca hda hv =>
     blockDiscard_call_error pfx (GExpr.callE c0 args) sfx hs
       (discard_call_error c0 args a hca hda hv) rfl,
   fun e hnc hok hv hse => discard_noncall_no_error e hnc hok hv hse⟩

/-- C10 (witness): the theorem applied at concrete inputs: a non-last
non-discardable call child of a block is reported, and a discarded integer
variable only warns. -/
theorem C10_witness :
    Diag.discardNotDiscardable
        ∈ blockDiscardDiags
            ([] ++ GExpr.callE (GExpr.fnRef 0 (GType.fn (GType.int true 64) 1 noAttrs))
                [GExpr.intLit 1] :: [GExpr.intLit 0])
      ∧ (Discard (GExpr.varRef 0 (GType.int true 64))).1 = [Diag.unusedResult] :=
  ⟨C10_discard_behaviour.2.1 [] (GExpr.fnRef 0 (GType.fn (GType.int true 64) 1 noAttrs))
      [GExpr.intLit 1] noAttrs [GExpr.intLit 0] (by simp) rfl rfl rfl,
   (C10_discard_behaviour.2.2 (GExpr.varRef 0 (GType.int true 64))
      rfl rfl rfl rfl).2 rfl⟩

theorem emitDiag_dangling (st : SemaState) (d : Diag) :
    (emitDiag st d).dangling = st.dangling := rfl

theorem analyseSimple_dangling (st : SemaState) (e : SExpr) :
    (analyseSimple st e).dangling = st.dangling := by
  cases e with
  | sLit v => rfl
  | sVar id ty =>
      simp only [analyseSimple]
      split <;> rfl

theorem analyseVarDecl_dangling (st : SemaState) (id : Nat) (ty : GType)
    (init : Option SExpr) :
    (AnalyseVarDecl st id ty init).dangling
      = (if (DeclTypeDecay ty).isDynArray then st.dangling ++ [id] else st.dangling) := by
  unfold AnalyseVarDecl
  cases init with
  | none =>
      dsimp only
      split <;> rfl
  | some v =>
      dsimp only
      split <;> split <;> simp [emitDiag_dangling, analyseSimple_dangling]

theorem analyseStmt_dangling (rt : GType) (st st' : SemaState) (s : Stmt)
    (h : AnalyseStmt rt st s = .ok st') :
    st'.dangling = danglingStep st.dangling s := by
  cases s with
  | sDecl id ty init =>
      simp only [AnalyseStmt, Except.ok.injEq] at h
      subst h
      rw [analyseVarDecl_dangling]
      cases ty <;> rfl
  | sMinus op =>
      cases op with
      | sLit v =>
          simp only [AnalyseStmt, AnalyseUnaryMinus, SExpr.toG, GExpr.type,
                     GType.isDynArray, GType.isIntStrict, Bool.false_eq_true,
                     if_false, if_true, Except.ok.injEq] at h
          subst h
          simp [danglingStep, analyseSimple_dangling]
      | sVar id2 ty =>
          by_cases hdyn : ty.isDynArray = true
          · simp only [AnalyseStmt, AnalyseUnaryMinus, SExpr.toG, GExpr.type, hdyn,
                       if_true, Except.ok.injEq] at h
            subst h
            simp [danglingStep, hdyn, analyseSimple_dangling]
          · simp only [AnalyseStmt, AnalyseUnaryMinus, SExpr.toG, GExpr.type, hdyn,
                       Bool.false_eq_true, if_false, Except.ok.injEq] at h
            split at h <;>
            · subst h
              simp [danglingStep, hdyn, analyseSimple_dangling, emitDiag_dangling]
  | sRet val =>
      cases val with
      | none =>
          simp only [AnalyseStmt, AnalyseReturn] at h
          simp at h
      | some v =>
          cases v with
          | sLit w =>
              simp only [AnalyseStmt, AnalyseReturn, SExpr.toG, GExpr.type,
                         GType.isDynArray, Bool.false_eq_true, if_false] at h
              split at h <;> simp only [Except.ok.injEq] at h <;>
              · subst h
                simp [danglingStep]
                split <;> simp [emitDiag_dangling, analyseSimple_dangling]
          | sVar id2 ty =>
              by_cases hdyn : ty.isDynArray = true <;>
                simp only [AnalyseStmt, AnalyseReturn, SExpr.toG, GExpr.type, hdyn,
                           Bool.false_eq_true, if_false, if_true] at h <;>
                split at h <;> simp only [Except.ok.injEq] at h <;>
                · subst h
                  simp [danglingStep, hdyn]
                  split <;> simp [emitDiag_dangling, analyseSimple_dangling]
  | sBare e =>
      simp only [AnalyseStmt, Except.ok.injEq] at h
      subst h
      simp [danglingStep, analyseSimple_dangling]

theorem analyseBody_dangling (rt : GType) (stmts : List Stmt) :
    ∀ st st', AnalyseBody rt st stmts = .ok st' →
      st'.dangling = stmts.foldl danglingStep st.dangling := by
  induction stmts with
  | nil =>
      intro st st' h
      simp only [AnalyseBody, Except.ok.injEq] at h
      subst h
      rfl
  | cons s rest ih =>
      intro st st' h
      cases rest with
      | nil =>
          simp only [AnalyseBody] at h
          simpa using analyseStmt_dangling rt st st' s h
      | cons s2 rest2 =>
          simp only [AnalyseBody] at h
          cases h1 : AnalyseStmt rt st s with
          | error c =>
              rw [h1] at h
              simp [Bind.bind, Except.bind] at h
          | ok st1 =>
              rw [h1] at h
              simp only [Bind.bind, Except.bind] at h
              have h2 := ih _ _ h
              rw [h2, List.foldl_cons]
              have h3 := analyseStmt_dangling rt st st1 s h1
              simp [h3]

theorem danglingStep_subset (acc : List Nat) (s : Stmt) (x : Nat)
    (hx : x ∈ danglingStep acc s) : x ∈ acc ∨ x ∈ declaredIds [s] := by
  cases s with
  | sDecl id ty init =>
      simp only [danglingStep] at hx
      split at hx
      · rcases List.mem_append.mp hx with h1 | h1
        · exact Or.inl h1
        · right
          simp [declaredIds]
          simpa using h1
      · exact Or.inl hx
  | sMinus op =>
      cases op with
      | sLit v => exact Or.inl hx
      | sVar id ty =>
          simp only [danglingStep] at hx
          split at hx
          · exact Or.inl (List.mem_of_mem_filter hx)
          · exact Or.inl hx
  | sRet val =>
      cases val with
      | none => exact Or.inl hx
      | some v =>
          cases v with
          | sLit w => exact Or.inl hx
          | sVar id ty =>
              simp only [danglingStep] at hx
              split at hx
              · exact Or.inl (List.mem_of_mem_filter hx)
              · exact Or.inl hx
  | sBare e => exact Or.inl hx

theorem foldl_dangling_subset (stmts : List Stmt) :
    ∀ acc x, x ∈ stmts.foldl danglingStep acc → x ∈ acc ∨ x ∈ declaredIds stmts := by
  induction stmts with
  | nil => intro acc x hx; exact Or.inl hx
  | cons s rest ih =>
      intro acc x hx
      rw [List.foldl_cons] at hx
      rcases ih _ x hx with h1 | h1
      · rcases danglingStep_subset acc s x h1 with h2 | h2
        · exact Or.inl h2
        · right
          cases s <;> simp [declaredIds] at h2 ⊢ <;> simp [h2]
      · right
        cases s <;> simp [declaredIds, h1]

theorem analyseFunctionBody_decompose (fn : FnModel) (st0 stF : SemaState)
    (h : AnalyseFunctionBody fn st0 = .ok stF) :
    ∃ stB, AnalyseBody fn.retTy
        { fn.params.foldl (fun st p => AnalyseVarDecl st p.1 p.2 none) st0 with
          dangling := [] } fn.body = .ok stB
      ∧ stF.dangling = stB.dangling
      ∧ stF.errFlag = stB.errFlag
      ∧ (stB.errFlag = false →
          stF.diags = stB.diags ++ stB.dangling.map (fun id => Diag.forgotToFree id)) := by
  simp only [AnalyseFunctionBody] at h
  cases hB : AnalyseBody fn.retTy
      { fn.params.foldl (fun st p => AnalyseVarDecl st p.1 p.2 none) st0 with
        dangling := [] } fn.body with
  | error c =>
      rw [hB] at h
      simp [Bind.bind, Except.bind] at h
  | ok stB =>
      rw [hB] at h
      simp only [Bind.bind, Except.bind] at h
      by_cases he : stB.errFlag = true
      · simp only [he, if_true, Except.ok.injEq] at h
        subst h
        refine ⟨stB, rfl, rfl, rfl, ?_⟩
        intro hf
        rw [he] at hf
        cases hf
      · have he2 : stB.errFlag = false := by simpa using he
        simp only [he2, Bool.false_eq_true, if_false, Except.ok.injEq] at h
        subst h
        refine ⟨stB, rfl, rfl, ?_, fun _ => rfl⟩
        simp [he2]

/-- C6 (counterexample): the claim's "every entry still present at the end
of body analysis is reported with a forgot-to-free error" fails when any
error was emitted: `AnalyseFunctionBody` returns early on
`context->has_error()` (sema.cc line 788).  In this function a leaked
dynamic array (id 1) is still dangling at the end, but — because the body
also contains a `return 0` in a void function, an error — no
forgot-to-free diagnostic is emitted. -/
theorem C6_leak_unreported_on_error :
    AnalyseFunctionBody
        { params := [], retTy := GType.void,
          body := [Stmt.sDecl 1 (GType.dynArray (GType.int true 64)) none,
                   Stmt.sRet (some (SExpr.sLit 0))] }
        ⟨[], [], [], false⟩
      = Except.ok ⟨[1], [], [Diag.returnVoidValue], true⟩
    ∧ (1 : Nat) ∈ [1]
    ∧ Diag.forgotToFree 1 ∉ [Diag.returnVoidValue] :=
  ⟨rfl, by decide, by decide⟩

/-- C6 (amended): during analysis of a function body, the dangling set
evolves exactly as the claim states — it gains precisely the declared
variables of dynamic-array type and loses an entry when that variable is
freed with unary `-` or returned via a name reference (`danglingSpec`),
for every statement prefix; consequently it never contains a function
parameter whose id is not redeclared in the body (the dangling list is
cleared after the parameter phase); and — provided no error has been
emitted, i.e. the context error flag is unset — every entry still present
at the end of body analysis is reported with a forgot-to-free error. -/
theorem C6_dangling_set_behaviour :
    (∀ (rt : GType) (pfx : List Stmt) (st stB : SemaState),
        st.dangling = [] →
        AnalyseBody rt st pfx = .ok stB →
        stB.dangling = danglingSpec pfx
          ∧ ∀ x ∈ stB.dangling, x ∈ declaredIds pfx)
    ∧ (∀ (fn : FnModel) (st0 stF : SemaState),
        AnalyseFunctionBody fn st0 = .ok stF →
        stF.dangling = danglingSpec fn.body
          ∧ (∀ p ∈ fn.params, p.1 ∉ declaredIds fn.body → p.1 ∉ stF.dangling)
          ∧ (stF.errFlag = false →
              ∀ id ∈ stF.dangling, Diag.forgotToFree id ∈ stF.diags)) := by
  have hbody : ∀ (rt : GType) (pfx : List Stmt) (st stB : SemaState),
      st.dangling = [] → AnalyseBody rt st pfx = .ok stB →
      stB.dangling = danglingSpec pfx ∧ ∀ x ∈ stB.dangling, x ∈ declaredIds pfx := by
    intro rt pfx st stB hd0 hB
    have h1 := analyseBody_dangling rt pfx st stB hB
    rw [hd0] at h1
    refine ⟨h1, ?_⟩
    intro x hx
    rw [h1] at hx
    rcases foldl_dangling_subset pfx [] x hx with h2 | h2
    · simp at h2
    · exact h2
  refine ⟨hbody, ?_⟩
  intro fn st0 stF h
  obtain ⟨stB, hB, hdg, hef, hdi⟩ := analyseFunctionBody_decompose fn st0 stF h
  have hm := hbody fn.retTy fn.body _ stB rfl hB
  refine ⟨by rw [hdg, hm.1], ?_, ?_⟩
  · intro p hp hnd hmem
    rw [hdg] at hmem
    exact hnd (hm.2 p.1 hmem)
  · intro hflag id hid
    rw [hef] at hflag
    rw [hdi hflag]
    rw [hdg] at hid
    exact List.mem_append_right _ (List.mem_map_of_mem _ hid)

/-- C6 (witness): the amended theorem applied at a concrete function that
declares a dynamic array and never frees it: the dangling set is exactly
the declared variable, no parameter is in it, and the leak is reported. -/
theorem C6_witness :
    AnalyseFunctionBody
        { params := [], retTy := GType.void,
          body := [Stmt.sDecl 1 (GType.dynArray (GType.int true 64)) none] }
        ⟨[], [], [], false⟩
      = Except.ok ⟨[1], [], [Diag.forgotToFree 1], false⟩
    ∧ ([1] : List Nat)
        = danglingSpec [Stmt.sDecl 1 (GType.dynArray (GType.int true 64)) none]
    ∧ Diag.forgotToFree 1 ∈ [Diag.forgotToFree 1] := by
  have h := (C6_dangling_set_behaviour.2
    { params := [], retTy := GType.void,
      body := [Stmt.sDecl 1 (GType.dynArray (GType.int true 64)) none] }
    ⟨[], [], [], false⟩ ⟨[1], [], [Diag.forgotToFree 1], false⟩ rfl)
  exact ⟨rfl, h.1, h.2.2 rfl 1 (by decide)⟩

/-! ## C7: the import loader -/

theorem specScan_object_append (env : LoadEnv) (hdeser : ∀ b, env.deser b = true)
    (ps : List String) :
    ∀ tried cs,
      specScan env (ps.map (fun p => (CandK.objectK, p)) ++ cs) tried =
        (match tryObjectList env ps tried with
         | .error e => .error e
         | .ok r => if r.2 then .ok r else specScan env cs r.1) := by
  induction ps with
  | nil =>
      intro tried cs
      simp [tryObjectList]
  | cons p rest ih =>
      intro tried cs
      simp only [List.map_cons, List.cons_append, specScan, tryObjectList]
      cases hf : env.fs p with
      | none =>
          simp only [specProbe, hf]
          exact ih (tried ++ [p]) cs
      | some bytes =>
          simp only [specProbe, hf]
          by_cases hb : bytes = []
          · simp [hb]
          · simp only [hb, if_false]
            by_cases helf : 64 ≤ bytes.length ∧ bytes.take 4 = elfMagic
            · simp only [helf, if_true]
              by_cases hblob : env.getSection bytes = []
              · simp [hblob]
              · simp only [hblob, if_false]
                by_cases hmagic : (env.getSection bytes).take 4 = metadataMagic
                · simp [hmagic, hdeser]
                · simp [hmagic]
            · simp [helf]

theorem specScan_asm (env : LoadEnv) (name d : String) :
    ∀ tried cs,
      specScan env ((CandK.asmK, d ++ "/" ++ name ++ ".s") :: cs) tried =
        (match tryAsm env name d tried with
         | .error e => .error e
         | .ok r => if r.2 then .ok r else specScan env cs r.1) := by
  intro tried cs
  simp only [specScan, tryAsm]
  cases hf : env.fs (d ++ "/" ++ name ++ ".s") with
  | none => simp [specProbe, hf]
  | some bytes => simp [specProbe, hf]

theorem specScan_gmeta (env : LoadEnv) (hdeser : ∀ b, env.deser b = true)
    (name d : String) :
    ∀ tried cs,
      specScan env ((CandK.gmetaK, d ++ "/" ++ name ++ ".gmeta") :: cs) tried =
        (match tryGmeta env name d tried with
         | .error e => .error e
         | .ok r => if r.2 then .ok r else specScan env cs r.1) := by
  intro tried cs
  simp only [specScan, tryGmeta]
  cases hf : env.fs (d ++ "/" ++ name ++ ".gmeta") with
  | none => simp [specProbe, hf]
  | some bytes =>
      by_cases hb : bytes = []
      · simp [specProbe, hf, hb]
      · by_cases hmagic : bytes.take 4 = metadataMagic
        · simp [specProbe, hf, hb, hmagic, hdeser]
        · simp [specProbe, hf, hb, hmagic]

theorem specScan_dir (env : LoadEnv) (hdeser : ∀ b, env.deser b = true)
    (name d : String) :
    ∀ tried cs,
      specScan env ((CandK.gmetaK, d ++ "/" ++ name ++ ".gmeta")
          :: ((objectPaths name d).map (fun p => (CandK.objectK, p))
              ++ ((CandK.asmK, d ++ "/" ++ name ++ ".s") :: cs))) tried =
        (match loadFromDir env name d tried with
         | .error e => .error e
         | .ok r => if r.2 then .ok r else specScan env cs r.1) := by
  intro tried cs
  rw [specScan_gmeta env hdeser name d]
  cases hgm : tryGmeta env name d tried with
  | error e => simp [loadFromDir, hgm, Bind.bind, Except.bind]
  | ok r1 =>
      simp only [loadFromDir, hgm, Bind.bind, Except.bind]
      by_cases h1 : r1.2 = true
      · simp [h1]
      · have h1f : r1.2 = false := by simpa using h1
        simp only [h1f, Bool.false_eq_true, if_false]
        rw [specScan_object_append env hdeser (objectPaths name d) r1.1
              ((CandK.asmK, d ++ "/" ++ name ++ ".s") :: cs)]
        cases ho : tryObjectList env (objectPaths name d) r1.1 with
        | error e => simp [tryObject, ho]
        | ok r2 =>
            simp only [tryObject, ho]
            by_cases h2 : r2.2 = true
            · simp [h2]
            · have h2f : r2.2 = false := by simpa using h2
              simp only [h2f, Bool.false_eq_true, if_false]
              rw [specScan_asm env name d r2.1 cs]

theorem specCands_cons (name d : String) (rest : List String) :
    specCands name (d :: rest) =
      (CandK.gmetaK, d ++ "/" ++ name ++ ".gmeta")
        :: ((objectPaths name d).map (fun p => (CandK.objectK, p))
            ++ ((CandK.asmK, d ++ "/" ++ name ++ ".s") :: specCands name rest)) := by
  simp [specCands, List.flatMap_cons, List.append_assoc]

theorem specScan_eq_LoadImport (env : LoadEnv) (hdeser : ∀ b, env.deser b = true)
    (name : String) :
    ∀ dirs tried,
      specScan env (specCands name dirs) tried = LoadImport env name dirs tried := by
  intro dirs
  induction dirs with
  | nil => intro tried; simp [specCands, specScan, LoadImport]
  | cons d rest ih =>
      intro tried
      rw [specCands_cons, specScan_dir env hdeser name d tried (specCands name rest)]
      simp only [LoadImport, Bind.bind, Except.bind]
      cases h : loadFromDir env name d tried with
      | error e => rfl
      | ok r =>
          by_cases h2 : r.2 = true
          · simp [h2]
          · have h2f : r.2 = false := by simpa using h2
            simp [h2f, ih]

/-- C7: the import loader searches the include directories in order; within
each directory the gmeta file is tried before the six object candidates,
which are tried before the assembly file; the first successful load wins
(the model records the tried paths in order); and a located blob whose
first four bytes are not the metadata magic is a hard error. -/
theorem C7_loader_order_and_magic (env : LoadEnv)
    (hdeser : ∀ b, env.deser b = true) (name : String) :
    (∀ dirs tried,
        specScan env (specCands name dirs) tried = LoadImport env name dirs tried)
    ∧ (∀ d tried bytes, env.fs (d ++ "/" ++ name ++ ".gmeta") = some bytes →
        bytes ≠ [] → bytes.take 4 ≠ metadataMagic →
        tryGmeta env name d tried = .error .badMagic)
    ∧ (∀ p rest tried bytes, env.fs p = some bytes → bytes ≠ [] →
        64 ≤ bytes.length → bytes.take 4 = elfMagic →
        env.getSection bytes ≠ [] →
        (env.getSection bytes).take 4 ≠ metadataMagic →
        tryObjectList env (p :: rest) tried = .error .badMagic) := by
  refine ⟨specScan_eq_LoadImport env hdeser name, ?_, ?_⟩
  · intro d tried bytes hf hb hm
    simp [tryGmeta, hf, hb, hm]
  · intro p rest tried bytes hf hb hlen helf hblob hm
    simp [tryObjectList, hf, hb, hlen, helf, hblob, hm]

theorem C7_witness :
    (∀ b, envW.deser b = true) ∧
    specScan envW (specCands "m" ["inc1", "inc2"]) []
      = LoadImport envW "m" ["inc1", "inc2"] [] ∧
    LoadImport envW "m" ["inc1", "inc2"] []
      = .ok (["inc1/m.gmeta", "inc1/m.o", "inc1/m.obj", "inc1/m.a",
              "inc1/libm.o", "inc1/libm.obj", "inc1/libm.a", "inc1/m.s",
              "inc2/m.gmeta", "inc2/m.o"], true) :=
  ⟨fun _ => rfl,
   (C7_loader_order_and_magic envW (fun _ => rfl) "m").1 ["inc1", "inc2"] [],
   by rfl⟩

theorem listGetD_set_ne (l : List Nat) (i j v : Nat) (h : i ≠ j) :
    (l.set i v).getD j 0 = l.getD j 0 := by
  simp [List.getD_eq_getElem?_getD, List.getElem?_set_ne h]

theorem listGetD_set_self (l : List Nat) (i v : Nat) (h : i < l.length) :
    (l.set i v).getD i 0 = v := by
  simp [List.getD_eq_getElem?_getD, List.getElem?_set_self, h]

theorem osaDiagIdx (n i j k : Nat) (hi : 1 ≤ i) (hj1 : 1 ≤ j) (hjn : j ≤ n)
    (hk : k ≤ n) (h : i * n + j = k * n + k) : i = k ∧ j = k := by
  rcases lt_trichotomy i k with hlt | heq | hgt
  · exfalso
    obtain ⟨e, rfl⟩ : ∃ e, k = i + 1 + e := ⟨k - i - 1, by omega⟩
    have hx : (i + 1 + e) * n = i * n + n + e * n := by ring
    rw [hx] at h
    have := Nat.zero_le (e * n)
    omega
  · subst heq
    exact ⟨rfl, by omega⟩
  · exfalso
    obtain ⟨e, rfl⟩ : ∃ e, i = k + 1 + e := ⟨i - k - 1, by omega⟩
    have hx : (k + 1 + e) * n = k * n + n + e * n := by ring
    rw [hx] at h
    have := Nat.zero_le (e * n)
    omega

theorem osaIdxLt (n i j : Nat) (hi : i ≤ n) (hj : j ≤ n) :
    i * n + j < (n + 1) * (n + 1) := by
  have h1 : i * n ≤ n * n := Nat.mul_le_mul_right n hi
  have h2 : (n + 1) * (n + 1) = n * n + 2 * n + 1 := by ring
  omega

theorem osaCell_length (s t : List Char) (n i j : Nat) (d : List Nat) :
    (osaCell s t n i j d).length = d.length := by
  simp only [osaCell]
  split <;> simp

theorem osaRowPass_length (s t : List Char) (n j : Nat) (d : List Nat) :
    ∀ r, (osaRowPass s t n j d r).length = d.length := by
  intro r
  induction r with
  | zero => rfl
  | succ r ih => simp [osaRowPass, osaCell_length, ih]

theorem osaColPass_length (s t : List Char) (n m : Nat) (d : List Nat) :
    ∀ c, (osaColPass s t n m d c).length = d.length := by
  intro c
  induction c with
  | zero => rfl
  | succ c ih => simp [osaColPass, osaRowPass_length, ih]

theorem osaCell_getD_ne (s t : List Char) (n i j : Nat) (d : List Nat) (idx : Nat)
    (h : idx ≠ i * n + j) :
    (osaCell s t n i j d).getD idx 0 = d.getD idx 0 := by
  simp only [osaCell]
  split
  · rw [listGetD_set_ne _ _ _ _ (Ne.symm h), listGetD_set_ne _ _ _ _ (Ne.symm h)]
  · rw [listGetD_set_ne _ _ _ _ (Ne.symm h)]

theorem osaRowPass_getD_ne (s t : List Char) (n j : Nat) (d : List Nat) (idx : Nat) :
    ∀ r, (∀ i, 1 ≤ i → i ≤ r → idx ≠ i * n + j) →
      (osaRowPass s t n j d r).getD idx 0 = d.getD idx 0 := by
  intro r
  induction r with
  | zero => intro _; rfl
  | succ r ih =>
      intro h
      show (osaCell s t n (r + 1) j (osaRowPass s t n j d r)).getD idx 0 = d.getD idx 0
      rw [osaCell_getD_ne s t n (r + 1) j _ idx (h (r + 1) (by omega) (by omega))]
      exact ih (fun i h1 h2 => h i h1 (by omega))

theorem osaCell_diag (s : List Char) (n k : Nat) (d : List Nat)
    (hk1 : 1 ≤ k) (hkn : k ≤ n) (hlen : d.length = (n + 1) * (n + 1))
    (hprev : d.getD ((k - 1) * n + (k - 1)) 0 = 0) :
    (osaCell s s n k k d).getD (k * n + k) 0 = 0 := by
  have hb : k * n + k < d.length := by
    rw [hlen]; exact osaIdxLt n k k hkn hkn
  simp only [osaCell]
  split
  · rw [listGetD_set_self _ _ _ (by simpa using hb),
        listGetD_set_self _ _ _ hb]
    simp only [List.getD_eq_getElem?_getD] at hprev
    simp [hprev]
  · rw [listGetD_set_self _ _ _ hb]
    simp only [List.getD_eq_getElem?_getD] at hprev
    simp [hprev]

theorem osaRowPass_diag (s : List Char) (n j' : Nat) (d : List Nat)
    (hjn : j' + 1 ≤ n) (hlen : d.length = (n + 1) * (n + 1))
    (hprev : d.getD (j' * n + j') 0 = 0) :
    ∀ r, j' + 1 ≤ r →
      (osaRowPass s s n (j' + 1) d r).getD ((j' + 1) * n + (j' + 1)) 0 = 0 := by
  intro r
  induction r with
  | zero => intro hr; omega
  | succ r ih =>
      intro hr
      show (osaCell s s n (r + 1) (j' + 1) (osaRowPass s s n (j' + 1) d r)).getD
        ((j' + 1) * n + (j' + 1)) 0 = 0
      by_cases hrj : j' = r
      · subst hrj
        apply osaCell_diag s n (j' + 1) _ (by omega) hjn
        · rw [osaRowPass_length, hlen]
        · simp only [Nat.add_sub_cancel]
          rw [osaRowPass_getD_ne]
          · exact hprev
          · intro i h1 h2 heq
            have := osaDiagIdx n i (j' + 1) j' (by omega) (by omega) hjn (by omega) heq.symm
            omega
      · have hr2 : j' + 1 ≤ r := by omega
        rw [osaCell_getD_ne]
        · exact ih hr2
        · intro heq
          have := osaDiagIdx n (r + 1) (j' + 1) (j' + 1) (by omega) (by omega) hjn hjn heq.symm
          omega

theorem osaColPass_diag (s : List Char) (n : Nat) (d : List Nat)
    (hlen : d.length = (n + 1) * (n + 1)) (h0 : d.getD 0 0 = 0) :
    ∀ c, c ≤ n → ∀ k, k ≤ c →
      (osaColPass s s n n d c).getD (k * n + k) 0 = 0 := by
  intro c
  induction c with
  | zero =>
      intro _ k hk
      have hk0 : k = 0 := by omega
      subst hk0
      simpa [osaColPass] using h0
  | succ c ih =>
      intro hc k hk
      show (osaRowPass s s n (c + 1) (osaColPass s s n n d c) n).getD (k * n + k) 0 = 0
      by_cases hkc : k = c + 1
      · subst hkc
        apply osaRowPass_diag s n c _ hc
        · rw [osaColPass_length, hlen]
        · exact ih (by omega) c (by omega)
        · exact hc
      · have hk' : k ≤ c := by omega
        rw [osaRowPass_getD_ne]
        · exact ih (by omega) k hk'
        · intro i h1 h2 heq
          have := osaDiagIdx n i (c + 1) k (by omega) (by omega) hc (by omega) heq.symm
          omega

theorem osaInitRows_length (n : Nat) (d : List Nat) :
    ∀ i, (osaInitRows n d i).length = d.length := by
  intro i
  induction i with
  | zero => simp [osaInitRows]
  | succ i ih => simp [osaInitRows, ih]

theorem osaInitCols_length (d : List Nat) :
    ∀ j, (osaInitCols d j).length = d.length := by
  intro j
  induction j with
  | zero => simp [osaInitCols]
  | succ j ih => simp [osaInitCols, ih]

theorem osaInitCols_getD0 (d : List Nat) (h : 0 < d.length) :
    ∀ j, (osaInitCols d j).getD 0 0 = 0 := by
  intro j
  induction j with
  | zero => exact listGetD_set_self d 0 0 h
  | succ j ih =>
      show ((osaInitCols d j).set (j + 1) (j + 1)).getD 0 0 = 0
      rw [listGetD_set_ne _ _ _ _ (by omega)]
      exact ih

theorem osa_self (s : List Char) : optimal_string_alignment_distance s s = 0 := by
  simp only [optimal_string_alignment_distance]
  have hlr : (List.replicate ((s.length + 1) * (s.length + 1)) 0 : List Nat).length
      = (s.length + 1) * (s.length + 1) := List.length_replicate _ _
  have hlen2 : (osaInitCols (osaInitRows s.length
      (List.replicate ((s.length + 1) * (s.length + 1)) 0) s.length) s.length).length
      = (s.length + 1) * (s.length + 1) := by
    rw [osaInitCols_length, osaInitRows_length, hlr]
  have h0 : (osaInitCols (osaInitRows s.length
      (List.replicate ((s.length + 1) * (s.length + 1)) 0) s.length) s.length).getD 0 0
      = 0 := by
    apply osaInitCols_getD0
    rw [osaInitRows_length, hlr]
    positivity
  exact osaColPass_diag s s.length _ hlen2 h0 s.length le_rfl s.length le_rfl

/-- C5: the Optimal String Alignment distance of every identifier against
itself is 0 - despite the buffer being indexed with stride `n` instead of
`n + 1`, the diagonal cells are written only by the diagonal updates, so the
zero diagonal survives - and an unresolved name whose nearest declaration
sits at distance exactly 1 with the same length as the typed name, which is
longer than 2 characters, is silently retargeted to that declaration. -/
theorem C5_osa_self_and_retarget (s name : List Char)
    (imports : List (List Char)) (decls : List (Nat × List Char)) (tl : Bool)
    (d : Nat × List Char)
    (hni : name ∉ imports)
    (hscan : scanLeast name decls (none, 2 ^ 64 - 1) = .ok (some d, 1))
    (hlen : 2 < name.length) (heq : name.length = d.2.length) :
    optimal_string_alignment_distance s s = 0 ∧
    AnalyseMissingNameRef name imports decls tl = .ok (.retargeted d.1) := by
  refine ⟨osa_self s, ?_⟩
  simp only [AnalyseMissingNameRef, Bind.bind, Except.bind]
  rw [if_neg hni, hscan]
  simp [hlen, heq, heq ▸ hlen]

theorem C5_witness :
    (['a', 'b', 'c'] ∉ ([] : List (List Char))) ∧
    scanLeast ['a', 'b', 'c'] [(7, ['a', 'b', 'd'])] (none, 2 ^ 64 - 1)
      = .ok (some (7, ['a', 'b', 'd']), 1) ∧
    2 < (['a', 'b', 'c'] : List Char).length ∧
    (['a', 'b', 'c'] : List Char).length = (['a', 'b', 'd'] : List Char).length ∧
    (optimal_string_alignment_distance ['a', 'b', 'c'] ['a', 'b', 'c'] = 0 ∧
      AnalyseMissingNameRef ['a', 'b', 'c'] [] [(7, ['a', 'b', 'd'])] false
        = .ok (.retargeted 7)) :=
  ⟨by simp, by rfl, by decide, by decide,
   C5_osa_self_and_retarget ['a', 'b', 'c'] ['a', 'b', 'c'] []
     [(7, ['a', 'b', 'd'])] false (7, ['a', 'b', 'd'])
     (by simp) (by rfl) (by decide) (by decide)⟩
